import Mathlib

/-!
Verification development for the cineverse-api movie service.

The service layer (src/services/movieService.ts) issues parameterized Cypher
statements against a labeled property graph whose schema is fixed by the
application: Movie, Person, Genre and Studio nodes (each with a unique natural
key enforced by database constraints, see createConstraints in src/db) and
ACTED_IN, DIRECTED, HAS_GENRE, PRODUCED edges with merge semantics.

This file gives a shallow embedding: the graph state is an explicit record of
node and edge lists, and each service function is translated from the Cypher
text of the corresponding function in movieService.ts.  MATCH patterns become
nested joins over the node and edge lists (Cypher relationship uniqueness
inside a single MATCH clause is rendered as an explicit inequality between the
two traversed edges where a pattern mentions two relationships), MERGE becomes
lookup-then-insert-or-update, DETACH DELETE becomes node removal plus filtering
of every touching edge, aggregation (count, COLLECT, COUNT(DISTINCT ..))
becomes grouping of the row list, and ORDER BY becomes mergeSort under the
stated key.  Fallible mutations return Except: the service throws NotFoundError
exactly when the underlying write query touched nothing, in which case the
database state is unchanged, so the pre-state is simply retained by the caller
on error.
-/

/-- Movie node: key title, optional released year and tagline. -/
structure Movie where
  title : String
  released : Option Int
  tagline : Option String
deriving DecidableEq

/-- Person node: key name, optional birth year. -/
structure Person where
  name : String
  born : Option Int
deriving DecidableEq

/-- ACTED_IN edge (Person to Movie) with its roles property. -/
structure ActedIn where
  person : String
  movie : String
  roles : List String
deriving DecidableEq

/-- DIRECTED edge (Person to Movie), no properties. -/
structure DirectedBy where
  person : String
  movie : String
deriving DecidableEq

/-- HAS_GENRE edge (Movie to Genre), no properties. -/
structure HasGenre where
  movie : String
  genre : String
deriving DecidableEq

/-- PRODUCED edge (Studio to Movie), no properties. -/
structure Produced where
  studio : String
  movie : String
deriving DecidableEq

/-- The whole graph state: node lists per label (Genre and Studio nodes carry
only their key) and edge lists per relationship type. -/
structure Graph where
  movies : List Movie
  people : List Person
  genres : List String
  studios : List String
  actedIn : List ActedIn
  directedBy : List DirectedBy
  hasGenre : List HasGenre
  produced : List Produced
deriving DecidableEq

/-- Error kinds surfaced by the service layer that matter here; NotFoundError
is thrown when a write query matched or changed nothing. -/
inductive ServiceError where
  | notFound
deriving DecidableEq

/-- Does a Movie node with this title exist. -/
def movieExists (g : Graph) (t : String) : Bool :=
  g.movies.any (fun m => m.title == t)

/-- Does a Person node with this name exist. -/
def personExists (g : Graph) (n : String) : Bool :=
  g.people.any (fun p => p.name == n)

/-- Does a Genre node with this name exist. -/
def genreExists (g : Graph) (n : String) : Bool :=
  g.genres.any (fun x => x == n)

/-- Does a Studio node with this name exist. -/
def studioExists (g : Graph) (n : String) : Bool :=
  g.studios.any (fun x => x == n)

/-- All Movie nodes matching a MATCH pattern anchored at a title. -/
def movieNodes (g : Graph) (t : String) : List Movie :=
  g.movies.filter (fun m => m.title == t)

/-- All Person nodes matching a MATCH pattern anchored at a name. -/
def personNodes (g : Graph) (n : String) : List Person :=
  g.people.filter (fun p => p.name == n)

/-- All Genre nodes matching a MATCH pattern anchored at a name. -/
def genreNodes (g : Graph) (n : String) : List String :=
  g.genres.filter (fun x => x == n)

/-- addMovie: MERGE (m:Movie {title}) with ON CREATE SET and ON MATCH SET both
assigning released and tagline, so the attributes are overwritten
unconditionally (a null parameter removes the property). -/
def addMovie (g : Graph) (title : String) (released : Option Int)
    (tagline : Option String) : Graph :=
  if movieExists g title then
    { g with movies := g.movies.map (fun m =>
        if m.title == title then { m with released := released, tagline := tagline } else m) }
  else
    { g with movies := g.movies ++ [⟨title, released, tagline⟩] }

/-- addPerson: MERGE (p:Person {name}) with ON CREATE SET and ON MATCH SET both
assigning born. -/
def addPerson (g : Graph) (name : String) (born : Option Int) : Graph :=
  if personExists g name then
    { g with people := g.people.map (fun p =>
        if p.name == name then { p with born := born } else p) }
  else
    { g with people := g.people ++ [⟨name, born⟩] }

/-- addGenre: MERGE (g:Genre {name}). -/
def addGenre (g : Graph) (name : String) : Graph :=
  if genreExists g name then g else { g with genres := g.genres ++ [name] }

/-- addStudio: MERGE (s:Studio {name}). -/
def addStudio (g : Graph) (name : String) : Graph :=
  if studioExists g name then g else { g with studios := g.studios ++ [name] }

/-- connectActorToMovie: MATCH the Person and the Movie, then
MERGE (p)-[r:ACTED_IN]->(m) with ON CREATE SET and ON MATCH SET both assigning
roles.  If either MATCH fails the query returns no record and the service
throws NotFoundError with the database untouched. -/
def connectActorToMovie (g : Graph) (actorName movieTitle : String)
    (roles : List String) : Except ServiceError Graph :=
  if personExists g actorName && movieExists g movieTitle then
    if g.actedIn.any (fun e => e.person == actorName && e.movie == movieTitle) then
      Except.ok { g with actedIn := g.actedIn.map (fun e =>
        if e.person == actorName && e.movie == movieTitle then { e with roles := roles } else e) }
    else
      Except.ok { g with actedIn := g.actedIn ++ [⟨actorName, movieTitle, roles⟩] }
  else
    Except.error ServiceError.notFound

/-- connectDirectorToMovie: MATCH the Person and the Movie, then
MERGE (p)-[r:DIRECTED]->(m); no properties. -/
def connectDirectorToMovie (g : Graph) (directorName movieTitle : String) :
    Except ServiceError Graph :=
  if personExists g directorName && movieExists g movieTitle then
    if g.directedBy.any (fun e => e.person == directorName && e.movie == movieTitle) then
      Except.ok g
    else
      Except.ok { g with directedBy := g.directedBy ++ [⟨directorName, movieTitle⟩] }
  else
    Except.error ServiceError.notFound

/-- connectStudioToMovie: MATCH the Studio and the Movie, then
MERGE (s)-[r:PRODUCED]->(m). -/
def connectStudioToMovie (g : Graph) (studioName movieTitle : String) :
    Except ServiceError Graph :=
  if studioExists g studioName && movieExists g movieTitle then
    if g.produced.any (fun e => e.studio == studioName && e.movie == movieTitle) then
      Except.ok g
    else
      Except.ok { g with produced := g.produced ++ [⟨studioName, movieTitle⟩] }
  else
    Except.error ServiceError.notFound

/-- Merge a single Genre node, as done per UNWIND row by connectMovieToGenre. -/
def mergeGenreNode (g : Graph) (name : String) : Graph :=
  if genreExists g name then g else { g with genres := g.genres ++ [name] }

/-- Merge a single HAS_GENRE edge, as done per UNWIND row by
connectMovieToGenre. -/
def mergeHasGenreEdge (g : Graph) (movieTitle genreName : String) : Graph :=
  if g.hasGenre.any (fun e => e.movie == movieTitle && e.genre == genreName) then g
  else { g with hasGenre := g.hasGenre ++ [⟨movieTitle, genreName⟩] }

/-- connectMovieToGenre: MATCH the Movie, then UNWIND the genre names and for
each one MERGE (g:Genre {name}) — creating the Genre node when absent — and
MERGE (m)-[r:HAS_GENRE]->(g).  The service throws NotFoundError when the query
returns no record, which happens when the movie is absent or the genre list is
empty; in both situations nothing was merged. -/
def connectMovieToGenre (g : Graph) (movieTitle : String)
    (genreNames : List String) : Except ServiceError Graph :=
  if movieExists g movieTitle then
    if genreNames.isEmpty then
      Except.error ServiceError.notFound
    else
      Except.ok (genreNames.foldl
        (fun acc gn => mergeHasGenreEdge (mergeGenreNode acc gn) movieTitle gn) g)
  else
    Except.error ServiceError.notFound

/-- deleteMovie: MATCH (m:Movie {title}) DETACH DELETE m, removing the node
and every edge in which it is source or target; NotFoundError when the update
statistics show nothing changed, i.e. the node was absent. -/
def deleteMovie (g : Graph) (title : String) : Except ServiceError Graph :=
  if movieExists g title then
    Except.ok
      { movies := g.movies.filter (fun m => !(m.title == title))
        people := g.people
        genres := g.genres
        studios := g.studios
        actedIn := g.actedIn.filter (fun e => !(e.movie == title))
        directedBy := g.directedBy.filter (fun e => !(e.movie == title))
        hasGenre := g.hasGenre.filter (fun e => !(e.movie == title))
        produced := g.produced.filter (fun e => !(e.movie == title)) }
  else
    Except.error ServiceError.notFound

/-- deletePerson: MATCH (p:Person {name}) DETACH DELETE p. -/
def deletePerson (g : Graph) (name : String) : Except ServiceError Graph :=
  if personExists g name then
    Except.ok
      { movies := g.movies
        people := g.people.filter (fun p => !(p.name == name))
        genres := g.genres
        studios := g.studios
        actedIn := g.actedIn.filter (fun e => !(e.person == name))
        directedBy := g.directedBy.filter (fun e => !(e.person == name))
        hasGenre := g.hasGenre
        produced := g.produced }
  else
    Except.error ServiceError.notFound

/-- deleteRelationship: MATCH (from)-[r]->(to) WHERE from.name = fromName AND
to.title = toName AND type(r) = relationshipType, DELETE r.  The endpoint
nodes are untyped and matched purely by property value: Person, Genre and
Studio nodes carry a name property and only Movie nodes carry a title
property, so ACTED_IN and DIRECTED edges (Person to Movie) and PRODUCED edges
(Studio to Movie) can match, while HAS_GENRE edges never match because their
source Movie has no name property.  Every matching edge is deleted;
NotFoundError when the update statistics show no deletion happened. -/
def deleteRelationship (g : Graph) (fromName toName relType : String) :
    Except ServiceError Graph :=
  let hit : Bool :=
    (relType == "ACTED_IN" &&
      g.actedIn.any (fun e => e.person == fromName && e.movie == toName)) ||
    (relType == "DIRECTED" &&
      g.directedBy.any (fun e => e.person == fromName && e.movie == toName)) ||
    (relType == "PRODUCED" &&
      g.produced.any (fun e => e.studio == fromName && e.movie == toName))
  if hit then
    Except.ok
      { g with
        actedIn := if relType == "ACTED_IN" then
            g.actedIn.filter (fun e => !(e.person == fromName && e.movie == toName))
          else g.actedIn
        directedBy := if relType == "DIRECTED" then
            g.directedBy.filter (fun e => !(e.person == fromName && e.movie == toName))
          else g.directedBy
        produced := if relType == "PRODUCED" then
            g.produced.filter (fun e => !(e.studio == fromName && e.movie == toName))
          else g.produced }
  else
    Except.error ServiceError.notFound

/-- Ceiling division on Nat, modelling Math.ceil(totalItems / limit) for a
positive limit as computed by the pagination endpoints. -/
def ceilDiv (a b : Nat) : Nat := (a + b - 1) / b

/-- Result shape of the paginated listing endpoints. -/
structure Paginated (α : Type) where
  data : List α
  page : Nat
  limit : Nat
  totalItems : Nat
  totalPages : Nat
deriving DecidableEq

/-- Movies in the order produced by ORDER BY m.title. -/
def sortedMovies (g : Graph) : List Movie :=
  g.movies.mergeSort (fun a b => decide (a.title ≤ b.title))

/-- People in the order produced by ORDER BY p.name. -/
def sortedPeople (g : Graph) : List Person :=
  g.people.mergeSort (fun a b => decide (a.name ≤ b.name))

/-- listAllMovies: count all movies, then MATCH (m:Movie) RETURN m
ORDER BY m.title SKIP (page-1)*limit LIMIT limit, with
totalPages = Math.ceil(totalItems / limit). -/
def listAllMovies (g : Graph) (page limit : Nat) : Paginated Movie :=
  { data := ((sortedMovies g).drop ((page - 1) * limit)).take limit
    page := page
    limit := limit
    totalItems := g.movies.length
    totalPages := ceilDiv g.movies.length limit }

/-- listAllPeople: count all people, then MATCH (p:Person) RETURN p
ORDER BY p.name SKIP (page-1)*limit LIMIT limit. -/
def listAllPeople (g : Graph) (page limit : Nat) : Paginated Person :=
  { data := ((sortedPeople g).drop ((page - 1) * limit)).take limit
    page := page
    limit := limit
    totalItems := g.people.length
    totalPages := ceilDiv g.people.length limit }

/-- Row of getMoviesByActor: the matched movie joined with the roles carried
by the traversed ACTED_IN edge. -/
structure MovieByActorRow where
  title : String
  released : Option Int
  tagline : Option String
  roles : List String
deriving DecidableEq

/-- getMoviesByActor: MATCH (p:Person {name})-[r:ACTED_IN]->(m:Movie)
RETURN m.title, m.released, m.tagline, r.roles.  An absent anchor matches
nothing and yields the empty list. -/
def getMoviesByActor (g : Graph) (actorName : String) : List MovieByActorRow :=
  (personNodes g actorName).flatMap (fun p =>
    (g.actedIn.filter (fun e => e.person == p.name)).flatMap (fun e =>
      (movieNodes g e.movie).map (fun m => ⟨m.title, m.released, m.tagline, e.roles⟩)))

/-- getActorsInMovie: MATCH (p:Person)-[r:ACTED_IN]->(m:Movie {title})
RETURN p.name, r.roles. -/
def getActorsInMovie (g : Graph) (movieTitle : String) : List (String × List String) :=
  (movieNodes g movieTitle).flatMap (fun m =>
    (g.actedIn.filter (fun e => e.movie == m.title)).flatMap (fun e =>
      (personNodes g e.person).map (fun p => (p.name, e.roles))))

/-- getMoviesDirectedByPerson: MATCH (p:Person {name})-[:DIRECTED]->(m:Movie)
RETURN m. -/
def getMoviesDirectedByPerson (g : Graph) (directorName : String) : List Movie :=
  (personNodes g directorName).flatMap (fun p =>
    (g.directedBy.filter (fun e => e.person == p.name)).flatMap (fun e =>
      movieNodes g e.movie))

/-- getMoviesByGenre: MATCH (m:Movie)-[:HAS_GENRE]->(g:Genre {name})
RETURN m. -/
def getMoviesByGenre (g : Graph) (genreName : String) : List Movie :=
  (genreNodes g genreName).flatMap (fun gn =>
    (g.hasGenre.filter (fun e => e.genre == gn)).flatMap (fun e =>
      movieNodes g e.movie))

/-- getMoviesByStudio: MATCH (s:Studio {name})-[:PRODUCED]->(m:Movie)
RETURN m. -/
def getMoviesByStudio (g : Graph) (studioName : String) : List Movie :=
  (g.studios.filter (fun s => s == studioName)).flatMap (fun s =>
    (g.produced.filter (fun e => e.studio == s)).flatMap (fun e =>
      movieNodes g e.movie))

/-- getMovieByTitle: MATCH (m:Movie {title}) RETURN m, null when absent. -/
def getMovieByTitle (g : Graph) (title : String) : Option Movie :=
  (movieNodes g title).head?

/-- Row list of the getCoActors pattern
MATCH (p1:Person {name})-[:ACTED_IN]->(m:Movie)<-[:ACTED_IN]-(p2:Person)
WHERE p1 <> p2: one row (p2.name, m.title) per match.  The two ACTED_IN
relationships of the single MATCH clause must be distinct edges. -/
def coActorRows (g : Graph) (actorName : String) : List (String × String) :=
  (personNodes g actorName).flatMap (fun p1 =>
    (g.actedIn.filter (fun e => e.person == p1.name)).flatMap (fun e1 =>
      (movieNodes g e1.movie).flatMap (fun m =>
        (g.actedIn.filter (fun e2 => e2.movie == m.title && !(e2 == e1))).flatMap (fun e2 =>
          ((personNodes g e2.person).filter (fun p2 => !(p2 == p1))).map (fun p2 =>
            (p2.name, m.title))))))

/-- Aggregation RETURN p2.name, count(m): group the rows by name and count the
rows of each group. -/
def aggregateCounts (rows : List (String × String)) : List (String × Nat) :=
  (rows.map Prod.fst).dedup.map (fun n =>
    (n, (rows.filter (fun r => r.1 == n)).length))

/-- Comparator for ORDER BY sharedMoviesCount DESC, name ASC. -/
def coActorLE (a b : String × Nat) : Bool :=
  decide (b.2 < a.2) || (a.2 == b.2 && decide (a.1 ≤ b.1))

/-- getCoActors: rows of the shared-movie pattern, aggregated per co-actor
name with count(m), ordered by count descending then name ascending. -/
def getCoActors (g : Graph) (actorName : String) : List (String × Nat) :=
  (aggregateCounts (coActorRows g actorName)).mergeSort coActorLE

/-- getSharedMoviesBetweenActors: MATCH
(p1:Person {name1})-[:ACTED_IN]->(m:Movie)<-[:ACTED_IN]-(p2:Person {name2})
RETURN m ORDER BY m.title ASC.  The two ACTED_IN relationships of the MATCH
clause must be distinct edges. -/
def getSharedMoviesBetweenActors (g : Graph) (actor1Name actor2Name : String) :
    List Movie :=
  ((personNodes g actor1Name).flatMap (fun p1 =>
    (g.actedIn.filter (fun e => e.person == p1.name)).flatMap (fun e1 =>
      (movieNodes g e1.movie).flatMap (fun m =>
        (g.actedIn.filter (fun e2 => e2.movie == m.title && !(e2 == e1))).flatMap (fun e2 =>
          ((personNodes g actor2Name).filter (fun p2 => p2.name == e2.person)).map (fun _p2 =>
            m)))))).mergeSort (fun m1 m2 => decide (m1.title ≤ m2.title))

/-- Row of the shared-genre recommendation pattern: the other movie joined
with the shared genre name. -/
structure RecRow where
  movie : Movie
  genre : String
deriving DecidableEq

/-- Row list of recommendMoviesBySharedGenres: MATCH
(m1:Movie {title})-[:HAS_GENRE]->(g:Genre)<-[:HAS_GENRE]-(m2:Movie)
WHERE m1 <> m2, one row per (genre, other movie) match; the two HAS_GENRE
relationships of the MATCH clause must be distinct edges. -/
def sharedGenreRows (g : Graph) (movieTitle : String) : List RecRow :=
  (movieNodes g movieTitle).flatMap (fun m1 =>
    (g.hasGenre.filter (fun e1 => e1.movie == m1.title)).flatMap (fun e1 =>
      (genreNodes g e1.genre).flatMap (fun gn =>
        (g.hasGenre.filter (fun e2 => e2.genre == gn && !(e2 == e1))).flatMap (fun e2 =>
          ((movieNodes g e2.movie).filter (fun m2 => !(m2 == m1))).map (fun m2 =>
            ⟨m2, gn⟩)))))

/-- Aggregated recommendation group before ordering: grouping keys are the
returned movie attributes (title, released, tagline) — which in this
embedding are exactly the fields of the movie record — together with
COLLECT(g.name) and COUNT(DISTINCT g). -/
structure RecGroup where
  movie : Movie
  sharedGenres : List String
  commonCount : Nat
deriving DecidableEq

/-- Group the recommendation rows by returned movie record, collecting the
shared names and counting the distinct ones. -/
def groupRecRows (rows : List RecRow) : List RecGroup :=
  (rows.map (fun r => r.movie)).dedup.map (fun m =>
    let shared := (rows.filter (fun r => r.movie == m)).map (fun r => r.genre)
    ⟨m, shared, shared.dedup.length⟩)

/-- Comparator for ORDER BY commonGenreCount DESC, m2.title ASC. -/
def recLE (a b : RecGroup) : Bool :=
  decide (b.commonCount < a.commonCount) ||
    (a.commonCount == b.commonCount && decide (a.movie.title ≤ b.movie.title))

/-- Final recommendation record with the reason string built by the service. -/
structure RecommendedMovie where
  title : String
  released : Option Int
  tagline : Option String
  reason : String
deriving DecidableEq

/-- recommendMoviesBySharedGenres: rows, grouped, ordered by shared-genre
count descending then title ascending, LIMIT 10, each mapped to a response
whose reason joins the collected shared genre names. -/
def recommendMoviesBySharedGenres (g : Graph) (movieTitle : String) :
    List RecommendedMovie :=
  (((groupRecRows (sharedGenreRows g movieTitle)).mergeSort recLE).take 10).map
    (fun r => ⟨r.movie.title, r.movie.released, r.movie.tagline,
      "Shared Genres: " ++ String.intercalate ", " r.sharedGenres⟩)

/-- Relationship of type ACTED_IN or DIRECTED, as traversed by the untyped
relationship variables of recommendMoviesBySharedCastCrew. -/
inductive CastCrewEdge where
  | acted (e : ActedIn)
  | directedBy (e : DirectedBy)
deriving DecidableEq

/-- Person endpoint of an ACTED_IN or DIRECTED relationship. -/
def CastCrewEdge.person : CastCrewEdge → String
  | CastCrewEdge.acted e => e.person
  | CastCrewEdge.directedBy e => e.person

/-- Movie endpoint of an ACTED_IN or DIRECTED relationship. -/
def CastCrewEdge.movie : CastCrewEdge → String
  | CastCrewEdge.acted e => e.movie
  | CastCrewEdge.directedBy e => e.movie

/-- ACTED_IN or DIRECTED relationships into a movie title. -/
def castCrewEdgesInto (g : Graph) (t : String) : List CastCrewEdge :=
  (g.actedIn.filter (fun e => e.movie == t)).map CastCrewEdge.acted ++
    (g.directedBy.filter (fun e => e.movie == t)).map CastCrewEdge.directedBy

/-- ACTED_IN or DIRECTED relationships out of a person name. -/
def castCrewEdgesFrom (g : Graph) (n : String) : List CastCrewEdge :=
  (g.actedIn.filter (fun e => e.person == n)).map CastCrewEdge.acted ++
    (g.directedBy.filter (fun e => e.person == n)).map CastCrewEdge.directedBy

/-- Row list of recommendMoviesBySharedCastCrew:
MATCH (m1:Movie {title})<-[r1:ACTED_IN|DIRECTED]-(p:Person) then a second
MATCH (p)-[r2:ACTED_IN|DIRECTED]->(m2:Movie) WHERE m1 <> m2; the two clauses
are separate so r1 and r2 need not be distinct. -/
def castCrewRows (g : Graph) (movieTitle : String) : List (Movie × String) :=
  (movieNodes g movieTitle).flatMap (fun m1 =>
    (castCrewEdgesInto g m1.title).flatMap (fun r1 =>
      (personNodes g r1.person).flatMap (fun p =>
        (castCrewEdgesFrom g p.name).flatMap (fun r2 =>
          ((movieNodes g r2.movie).filter (fun m2 => !(m2 == m1))).map (fun m2 =>
            (m2, p.name))))))

/-- Group the cast-crew rows by returned movie record, with
COLLECT(DISTINCT p.name) and COUNT(DISTINCT p). -/
def groupCastCrewRows (rows : List (Movie × String)) : List RecGroup :=
  (rows.map Prod.fst).dedup.map (fun m =>
    let shared := ((rows.filter (fun r => r.1 == m)).map Prod.snd).dedup
    ⟨m, shared, shared.length⟩)

/-- recommendMoviesBySharedCastCrew: rows, grouped, ordered by shared-people
count descending then title ascending, LIMIT 10, reason joining the shared
names. -/
def recommendMoviesBySharedCastCrew (g : Graph) (movieTitle : String) :
    List RecommendedMovie :=
  (((groupCastCrewRows (castCrewRows g movieTitle)).mergeSort recLE).take 10).map
    (fun r => ⟨r.movie.title, r.movie.released, r.movie.tagline,
      "Shared Cast/Crew: " ++ String.intercalate ", " r.sharedGenres⟩)

/-- findCommonDirectorsBetweenActors: two MATCH clauses
(p1 {name1})-[:ACTED_IN]->(m1)<-[:DIRECTED]-(d) and
(p2 {name2})-[:ACTED_IN]->(m2)<-[:DIRECTED]-(d) joined on d, then
RETURN DISTINCT d.name ORDER BY name ASC.  The ACTED_IN and DIRECTED
relationship variables inside one clause have different types, so the
uniqueness requirement between them is vacuous. -/
def findCommonDirectorsBetweenActors (g : Graph) (actor1Name actor2Name : String) :
    List String :=
  (((personNodes g actor1Name).flatMap (fun p1 =>
    (g.actedIn.filter (fun e => e.person == p1.name)).flatMap (fun e1 =>
      (movieNodes g e1.movie).flatMap (fun m1 =>
        (g.directedBy.filter (fun d1 => d1.movie == m1.title)).flatMap (fun d1 =>
          (personNodes g d1.person).flatMap (fun d =>
            (personNodes g actor2Name).flatMap (fun p2 =>
              (g.actedIn.filter (fun e2 => e2.person == p2.name)).flatMap (fun e2 =>
                (movieNodes g e2.movie).flatMap (fun m2 =>
                  (g.directedBy.filter (fun d2 =>
                      d2.movie == m2.title && d2.person == d.name)).map (fun _d2 =>
                    d.name)))))))))).dedup).mergeSort (fun a b => decide (a ≤ b))

/-- getTopNActorsByMovieCount: MATCH (p:Person)-[:ACTED_IN]->(m:Movie)
RETURN p.name, COUNT(DISTINCT m) ORDER BY movieCount DESC LIMIT n.  The order
among equal counts is engine defined; this embedding breaks ties by name so
the result is a deterministic representative. -/
def getTopNActorsByMovieCount (g : Graph) (n : Nat) : List (String × Nat) :=
  (((g.people.flatMap (fun p =>
      (g.actedIn.filter (fun e => e.person == p.name)).flatMap (fun e =>
        (movieNodes g e.movie).map (fun m => (p.name, m))))).map Prod.fst).dedup.map
    (fun nm =>
      (nm, (((g.actedIn.filter (fun e => e.person == nm)).flatMap (fun e =>
        movieNodes g e.movie)).dedup).length))).mergeSort coActorLE |>.take n

/-- Distinct movies shared via ACTED_IN between two person names, read
directly off the edge list: the movies of the first person whose
(second person, movie) ACTED_IN pair is also recorded.  Under the edge
uniqueness invariant this list has no duplicates, so its length is the number
of distinct shared movies. -/
def sharedMoviesSpec (g : Graph) (a b : String) : List String :=
  ((g.actedIn.filter (fun e => e.person == a)).map (fun e => e.movie)).filter
    (fun t => g.actedIn.any (fun e => e.person == b && e.movie == t))

/-- Genre names shared between two movie titles, read directly off the edge
list. -/
def sharedGenresSpec (g : Graph) (t₁ t₂ : String) : List String :=
  ((g.hasGenre.filter (fun e => e.movie == t₁)).map (fun e => e.genre)).filter
    (fun gn => g.hasGenre.any (fun e => e.movie == t₂ && e.genre == gn))

/-- Node of the path search: shortest path only ever visits Person and Movie
nodes, since ACTED_IN and DIRECTED touch nothing else. -/
inductive GNode where
  | person (name : String)
  | movie (title : String)
deriving DecidableEq

/-- One traversal step allowed by the relationship filter string
ACTED_IN|DIRECTED> of apoc.algo.shortestPath: ACTED_IN may be crossed in
either orientation (no direction marker), DIRECTED only along its stored
orientation from the Person to the Movie (the > marker means outgoing), read
along the path from the start node. -/
def step (g : Graph) : GNode → GNode → Bool
  | GNode.person p, GNode.movie m =>
      g.actedIn.any (fun e => e.person == p && e.movie == m) ||
        g.directedBy.any (fun e => e.person == p && e.movie == m)
  | GNode.movie m, GNode.person p =>
      g.actedIn.any (fun e => e.person == p && e.movie == m)
  | _, _ => false

/-- One traversal step of the undirected closure of ACTED_IN and DIRECTED.
Modelled from the spec: breadth-first search over the undirected closure of
ACTED_IN and DIRECTED edges, both edge types traversable in either logical
direction.  Kept for comparison with the step relation the source actually
requests. -/
def undirectedStep (g : Graph) : GNode → GNode → Bool
  | GNode.person p, GNode.movie m =>
      g.actedIn.any (fun e => e.person == p && e.movie == m) ||
        g.directedBy.any (fun e => e.person == p && e.movie == m)
  | GNode.movie m, GNode.person p =>
      g.actedIn.any (fun e => e.person == p && e.movie == m) ||
        g.directedBy.any (fun e => e.person == p && e.movie == m)
  | _, _ => false

/-- All Person and Movie nodes of the graph, the node universe of the path
search. -/
def pmNodes (g : Graph) : List GNode :=
  g.people.map (fun p => GNode.person p.name) ++ g.movies.map (fun m => GNode.movie m.title)

/-- Is there a walk of at most k steps from u to v under the step relation of
the APOC call, with intermediate hops drawn from the node universe. -/
def distLE (g : Graph) : GNode → GNode → Nat → Bool
  | u, v, 0 => u == v
  | u, v, k + 1 =>
      u == v || (pmNodes g).any (fun w => step g u w && distLE g w v k)

/-- Is there a walk of at most k steps from u to v under the undirected
closure.  Modelled from the spec for comparison. -/
def undirectedDistLE (g : Graph) : GNode → GNode → Nat → Bool
  | u, v, 0 => u == v
  | u, v, k + 1 =>
      u == v || (pmNodes g).any (fun w => undirectedStep g u w && undirectedDistLE g w v k)

/-- getShortestPathBetweenActors: MATCH both Person anchors, then
CALL apoc.algo.shortestPath(p1, p2, ACTED_IN|DIRECTED>, 5): a shortest path of
at most 5 relationship hops whose relationships satisfy the filter, null when
either anchor is absent or no such path exists.  The embedding returns the
length of the found path (the length field of the response, the edge count);
the alternating node and relationship segment list of the response is
determined by an engine-defined tie-break and is not modelled. -/
def getShortestPathBetweenActors (g : Graph) (actor1Name actor2Name : String) :
    Option Nat :=
  if personExists g actor1Name && personExists g actor2Name then
    (List.range 6).find? (fun k =>
      distLE g (GNode.person actor1Name) (GNode.person actor2Name) k)
  else none

/-- A walk witnessing the step relation: the node list starts at u, ends at v
and every consecutive pair is one allowed traversal step; the hop count is
the node count minus one. -/
def IsTraversalWalk (g : Graph) (u v : GNode) (nodes : List GNode) : Prop :=
  nodes.head? = some u ∧ nodes.getLast? = some v ∧
    List.Chain' (fun x y => step g x y = true) nodes

/-- The empty graph. -/
def gEmpty : Graph := ⟨[], [], [], [], [], [], [], []⟩

/-- Graph with one movie and no genres, exercising connectMovieToGenre with
an absent genre endpoint. -/
def gDuneOnly : Graph :=
  ⟨[⟨"Dune", some 2021, none⟩], [], [], [], [], [], [], []⟩

/-- Graph where the only connection between the actors Alice and Bob runs
through the director Dana: Alice acted in M1, Dana directed M1 and M2, Bob
acted in M2.  The undirected closure joins Alice and Bob in 4 hops, but the
hop from M1 to Dana crosses a DIRECTED edge against its orientation. -/
def gViaDirector : Graph :=
  ⟨[⟨"M1", none, none⟩, ⟨"M2", none, none⟩],
   [⟨"Alice", none⟩, ⟨"Dana", none⟩, ⟨"Bob", none⟩],
   [], [],
   [⟨"Alice", "M1", ["a"]⟩, ⟨"Bob", "M2", ["b"]⟩],
   [⟨"Dana", "M1"⟩, ⟨"Dana", "M2"⟩],
   [], []⟩

/-- Graph with one person who acted in two movies. -/
def gAnnTwoMovies : Graph :=
  ⟨[⟨"M1", none, none⟩, ⟨"M2", none, none⟩],
   [⟨"Ann", none⟩],
   [], [],
   [⟨"Ann", "M1", ["x"]⟩, ⟨"Ann", "M2", ["y"]⟩],
   [], [], []⟩

/-- Graph with co-actors: Ann shares M1 with Bob and M2 with Cara. -/
def gCoActors : Graph :=
  ⟨[⟨"M1", none, none⟩, ⟨"M2", none, none⟩],
   [⟨"Ann", none⟩, ⟨"Bob", none⟩, ⟨"Cara", none⟩],
   [], [],
   [⟨"Ann", "M1", ["x"]⟩, ⟨"Bob", "M1", ["y"]⟩, ⟨"Ann", "M2", ["x"]⟩,
    ⟨"Cara", "M2", ["z"]⟩],
   [], [], []⟩

/-- Graph for the genre recommendation: Dune and Inception share the genre
Sci-Fi. -/
def gGenreRec : Graph :=
  ⟨[⟨"Dune", some 2021, none⟩, ⟨"Inception", some 2010, none⟩],
   [], ["Sci-Fi"], [], [], [],
   [⟨"Dune", "Sci-Fi"⟩, ⟨"Inception", "Sci-Fi"⟩], []⟩

/-- Graph with a studio that produced a movie. -/
def gStudio : Graph :=
  ⟨[⟨"Dune", some 2021, none⟩], [], [], ["WB"], [], [], [],
   [⟨"WB", "Dune"⟩]⟩

/-- Graph with fifteen movies, listed out of title order. -/
def gFifteen : Graph :=
  ⟨[⟨"M08", none, none⟩, ⟨"M01", none, none⟩, ⟨"M12", none, none⟩,
    ⟨"M05", none, none⟩, ⟨"M15", none, none⟩, ⟨"M03", none, none⟩,
    ⟨"M10", none, none⟩, ⟨"M07", none, none⟩, ⟨"M14", none, none⟩,
    ⟨"M02", none, none⟩, ⟨"M09", none, none⟩, ⟨"M06", none, none⟩,
    ⟨"M13", none, none⟩, ⟨"M04", none, none⟩, ⟨"M11", none, none⟩],
   [], [], [], [], [], [], []⟩

/-- Graph for delete scenarios: Ann acted in Dune, Dana directed Dune, Dune
has genre Sci-Fi and studio WB produced it. -/
def gDelete : Graph :=
  ⟨[⟨"Dune", some 2021, none⟩, ⟨"M2", none, none⟩],
   [⟨"Ann", none⟩, ⟨"Dana", none⟩],
   ["Sci-Fi"], ["WB"],
   [⟨"Ann", "Dune", ["x"]⟩, ⟨"Ann", "M2", ["y"]⟩],
   [⟨"Dana", "Dune"⟩],
   [⟨"Dune", "Sci-Fi"⟩],
   [⟨"WB", "Dune"⟩]⟩

/-- Pointwise congruence for flatMap over a fixed list. -/
theorem flatMap_congrOn {α β : Type} {l : List α} {f f₂ : α → List β}
    (h : ∀ x ∈ l, f x = f₂ x) : l.flatMap f = l.flatMap f₂ := by
  induction l with
  | nil => rfl
  | cons a tl ih =>
      simp only [List.flatMap_cons]
      rw [h a (List.mem_cons_self a tl), ih fun x hx => h x (List.mem_cons_of_mem a hx)]

/-- Filtering by an equation on a key selects exactly the unique element
carrying that key, when the keys of the list are pairwise distinct. -/
theorem filter_keyed_singleton {α κ : Type} [DecidableEq κ] (key : α → κ) :
    ∀ (l : List α), (l.map key).Nodup → ∀ x ∈ l, ∀ k, key x = k →
      l.filter (fun y => key y == k) = [x] := by
  intro l
  induction l with
  | nil => intro _ x hx; exact absurd hx (List.not_mem_nil x)
  | cons a tl ih =>
      intro hnd x hx k hk
      have hnd' := hnd
      rw [List.map_cons, List.nodup_cons] at hnd'
      rcases List.mem_cons.mp hx with hxa | hxtl
      · subst hxa
        rw [List.filter_cons]
        have : (key x == k) = true := by simp [hk]
        rw [if_pos this]
        have htl : tl.filter (fun y => key y == k) = [] := by
          rw [List.filter_eq_nil_iff]
          intro b hb hbk
          apply hnd'.1
          rw [List.mem_map]
          refine ⟨b, hb, ?_⟩
          have := of_decide_eq_true hbk
          rw [this, hk]
        rw [htl]
      · have hka : ¬(key a == k) = true := by
          intro hak
          apply hnd'.1
          rw [List.mem_map]
          refine ⟨x, hxtl, ?_⟩
          rw [hk]
          exact (of_decide_eq_true hak).symm
        rw [List.filter_cons, if_neg hka]
        exact ih hnd'.2 x hxtl k hk

/-- Distinct keys make the key map injective on the list. -/
theorem keyed_inj {α κ : Type} (key : α → κ) {l : List α}
    (hnd : (l.map key).Nodup) {x y : α} (hx : x ∈ l) (hy : y ∈ l)
    (hk : key x = key y) : x = y :=
  List.inj_on_of_nodup_map hnd hx hy hk

/-- A filter over a list with pairwise distinct keys, by a predicate that pins
the key to a single value, selects at most one element; mapped through any
function that is constant on the selected elements, the result is the constant
when a match exists and empty otherwise. -/
theorem pinned_filter_map {α κ β : Type} [DecidableEq κ] (key : α → κ) :
    ∀ (l : List α), (l.map key).Nodup →
      ∀ (p : α → Bool) (k : κ), (∀ x ∈ l, p x = true → key x = k) →
      ∀ (f : α → β) (v : β), (∀ x ∈ l, p x = true → f x = v) →
      (l.filter p).map f = if l.any p then [v] else [] := by
  intro l
  induction l with
  | nil => intro _ p k _ f v _; simp
  | cons a tl ih =>
      intro hnd p k hp f v hv
      have hnd' := hnd
      rw [List.map_cons, List.nodup_cons] at hnd'
      by_cases hpa : p a = true
      · have htl : tl.filter p = [] := by
          rw [List.filter_eq_nil_iff]
          intro b hb hpb
          apply hnd'.1
          rw [List.mem_map]
          exact ⟨b, hb, by rw [hp b (List.mem_cons_of_mem a hb) hpb,
            hp a (List.mem_cons_self a tl) hpa]⟩
        have hany : (a :: tl).any p = true := by simp [hpa]
        rw [List.filter_cons, if_pos hpa, htl, hany]
        simp [hv a (List.mem_cons_self a tl) hpa]
      · rw [List.filter_cons, if_neg hpa]
        have hany : (a :: tl).any p = tl.any p := by
          simp only [List.any_cons]
          rw [Bool.eq_false_iff.mpr hpa, Bool.false_or]
        rw [hany]
        exact ih hnd'.2 p k (fun x hx => hp x (List.mem_cons_of_mem a hx)) f v
          (fun x hx => hv x (List.mem_cons_of_mem a hx))

/-- Push a filter through flatMap. -/
theorem filter_flatMapList {α β : Type} (l : List α) (f : α → List β) (p : β → Bool) :
    (l.flatMap f).filter p = l.flatMap (fun x => (f x).filter p) := by
  induction l with
  | nil => rfl
  | cons a tl ih => simp only [List.flatMap_cons, List.filter_append, ih]

/-- Push a map through flatMap. -/
theorem map_flatMapList {α β γ : Type} (l : List α) (f : α → List β) (h : β → γ) :
    (l.flatMap f).map h = l.flatMap (fun x => (f x).map h) := by
  induction l with
  | nil => rfl
  | cons a tl ih => simp only [List.flatMap_cons, List.map_append, ih]

/-- Turn flatMap over a filtered list into flatMap with a guard. -/
theorem flatMap_filter_guard {α β : Type} (l : List α) (p : α → Bool) (f : α → List β) :
    (l.filter p).flatMap f = l.flatMap (fun x => if p x then f x else []) := by
  induction l with
  | nil => rfl
  | cons a tl ih =>
      rw [List.filter_cons]
      by_cases hpa : p a = true
      · rw [if_pos hpa, List.flatMap_cons, List.flatMap_cons, if_pos hpa, ih]
      · rw [if_neg hpa, List.flatMap_cons, if_neg hpa, ih, List.nil_append]

/-- A flatMap producing a guarded singleton per element is the filtered image,
whenever the guard can be read off the image. -/
theorem flatMap_guard_single {α β : Type} (l : List α) (p : α → Bool) (f : α → β)
    (q : β → Bool) (h : ∀ x ∈ l, p x = q (f x)) :
    l.flatMap (fun x => if p x then [f x] else []) = (l.map f).filter q := by
  induction l with
  | nil => rfl
  | cons a tl ih =>
      rw [List.flatMap_cons, List.map_cons, List.filter_cons, ← h a (List.mem_cons_self a tl),
        ih fun x hx => h x (List.mem_cons_of_mem a hx)]
      by_cases hpa : p a = true
      · rw [if_pos hpa, if_pos hpa, List.singleton_append]
      · rw [if_neg hpa, if_neg hpa, List.nil_append]

/-- Unique node lookup: when titles are pairwise distinct and the title is
present, the anchored MATCH returns exactly the one movie node. -/
theorem movieNodes_singleton {g : Graph} (hmn : (g.movies.map Movie.title).Nodup)
    {t : String} (ht : movieExists g t = true) :
    ∃ m, m ∈ g.movies ∧ m.title = t ∧ movieNodes g t = [m] := by
  rcases List.any_eq_true.mp ht with ⟨m, hm, hmt⟩
  exact ⟨m, hm, of_decide_eq_true hmt,
    filter_keyed_singleton Movie.title g.movies hmn m hm t (of_decide_eq_true hmt)⟩

/-- Unique node lookup for people. -/
theorem personNodes_singleton {g : Graph} (hpn : (g.people.map Person.name).Nodup)
    {n : String} (hn : personExists g n = true) :
    ∃ p, p ∈ g.people ∧ p.name = n ∧ personNodes g n = [p] := by
  rcases List.any_eq_true.mp hn with ⟨p, hp, hpt⟩
  exact ⟨p, hp, of_decide_eq_true hpt,
    filter_keyed_singleton Person.name g.people hpn p hp n (of_decide_eq_true hpt)⟩

/-- Unique node lookup for genres. -/
theorem genreNodes_singleton {g : Graph} (hgn : g.genres.Nodup)
    {n : String} (hn : genreExists g n = true) : genreNodes g n = [n] := by
  rcases List.any_eq_true.mp hn with ⟨x, hx, hxt⟩
  have hxn : x = n := of_decide_eq_true hxt
  subst hxn
  have : g.genres.map id = g.genres := List.map_id g.genres
  exact filter_keyed_singleton id g.genres (by rw [this]; exact hgn) x hx x rfl

/-- Absent anchors match nothing. -/
theorem movieNodes_nil {g : Graph} {t : String} (ht : movieExists g t = false) :
    movieNodes g t = [] := by
  rw [movieNodes, List.filter_eq_nil_iff]
  intro m hm hmt
  rw [movieExists] at ht
  exact absurd (List.any_eq_true.mpr ⟨m, hm, hmt⟩) (by rw [ht]; exact Bool.false_ne_true)

/-- Absent person anchors match nothing. -/
theorem personNodes_nil {g : Graph} {n : String} (hn : personExists g n = false) :
    personNodes g n = [] := by
  rw [personNodes, List.filter_eq_nil_iff]
  intro p hp hpt
  rw [personExists] at hn
  exact absurd (List.any_eq_true.mpr ⟨p, hp, hpt⟩) (by rw [hn]; exact Bool.false_ne_true)


/-- Upserting a movie keeps the title keys pairwise distinct. -/
theorem addMovie_nodup {g : Graph} (t : String) (r : Option Int) (s : Option String)
    (hmn : (g.movies.map Movie.title).Nodup) :
    ((addMovie g t r s).movies.map Movie.title).Nodup := by
  unfold addMovie
  by_cases h : movieExists g t = true
  · rw [if_pos h]
    have heq : (g.movies.map (fun m =>
        if m.title == t then { m with released := r, tagline := s } else m)).map Movie.title
        = g.movies.map Movie.title := by
      rw [List.map_map]
      apply List.map_congr_left
      intro m _
      by_cases hm : m.title = t <;> simp [hm]
    exact heq ▸ hmn
  · rw [if_neg h]
    rw [List.map_append, List.nodup_append]
    refine ⟨hmn, by simp, ?_⟩
    intro x hx hx'
    rcases List.mem_map.mp hx with ⟨m, hm, hmt⟩
    have hxt : x = t := by simpa using hx'
    have h' : movieExists g t = false := by simpa using h
    rw [movieExists, List.any_eq_false] at h'
    exact h' m hm (by rw [hmt, hxt]; simp)

/-- After a movie upsert the nodes with the upserted title are exactly one
node carrying the new attributes. -/
theorem addMovie_filter {g : Graph} (t : String) (r : Option Int) (s : Option String)
    (hmn : (g.movies.map Movie.title).Nodup) :
    (addMovie g t r s).movies.filter (fun m => m.title == t) = [⟨t, r, s⟩] := by
  unfold addMovie
  by_cases h : movieExists g t = true
  · rw [if_pos h]
    obtain ⟨m₀, hm₀, hm₀t, hsing⟩ := movieNodes_singleton hmn h
    show (g.movies.map _).filter _ = _
    rw [List.filter_map]
    have hcong : g.movies.filter ((fun m => m.title == t) ∘ (fun m =>
        if m.title == t then { m with released := r, tagline := s } else m))
        = g.movies.filter (fun m => m.title == t) := by
      apply List.filter_congr
      intro m _
      by_cases hm : m.title = t <;> simp [hm]
    rw [hcong]
    have hmv : g.movies.filter (fun m => m.title == t) = [m₀] := hsing
    rw [hmv]
    rcases m₀ with ⟨t₀, r₀, s₀⟩
    simp only [List.map_cons, List.map_nil]
    have ht₀ : t₀ = t := hm₀t
    subst ht₀
    simp
  · rw [if_neg h]
    show (g.movies ++ [(⟨t, r, s⟩ : Movie)]).filter (fun m => m.title == t) = _
    rw [List.filter_append]
    have hnil : g.movies.filter (fun m => m.title == t) = [] :=
      movieNodes_nil (by simpa using h)
    rw [hnil]
    simp

/-- Upserting a person keeps the name keys pairwise distinct. -/
theorem addPerson_nodup {g : Graph} (n : String) (b : Option Int)
    (hpn : (g.people.map Person.name).Nodup) :
    ((addPerson g n b).people.map Person.name).Nodup := by
  unfold addPerson
  by_cases h : personExists g n = true
  · rw [if_pos h]
    have heq : (g.people.map (fun p =>
        if p.name == n then { p with born := b } else p)).map Person.name
        = g.people.map Person.name := by
      rw [List.map_map]
      apply List.map_congr_left
      intro p _
      by_cases hp : p.name = n <;> simp [hp]
    exact heq ▸ hpn
  · rw [if_neg h]
    rw [List.map_append, List.nodup_append]
    refine ⟨hpn, by simp, ?_⟩
    intro x hx hx'
    rcases List.mem_map.mp hx with ⟨p, hp, hpt⟩
    have hxt : x = n := by simpa using hx'
    have h' : personExists g n = false := by simpa using h
    rw [personExists, List.any_eq_false] at h'
    exact h' p hp (by rw [hpt, hxt]; simp)

/-- After a person upsert the nodes with the upserted name are exactly one
node carrying the new attributes. -/
theorem addPerson_filter {g : Graph} (n : String) (b : Option Int)
    (hpn : (g.people.map Person.name).Nodup) :
    (addPerson g n b).people.filter (fun p => p.name == n) = [⟨n, b⟩] := by
  unfold addPerson
  by_cases h : personExists g n = true
  · rw [if_pos h]
    obtain ⟨p₀, hp₀, hp₀t, hsing⟩ := personNodes_singleton hpn h
    show (g.people.map _).filter _ = _
    rw [List.filter_map]
    have hcong : g.people.filter ((fun p => p.name == n) ∘ (fun p =>
        if p.name == n then { p with born := b } else p))
        = g.people.filter (fun p => p.name == n) := by
      apply List.filter_congr
      intro p _
      by_cases hp : p.name = n <;> simp [hp]
    rw [hcong]
    have hpv : g.people.filter (fun p => p.name == n) = [p₀] := hsing
    rw [hpv]
    rcases p₀ with ⟨n₀, b₀⟩
    simp only [List.map_cons, List.map_nil]
    have hn₀ : n₀ = n := hp₀t
    subst hn₀
    simp
  · rw [if_neg h]
    show (g.people ++ [(⟨n, b⟩ : Person)]).filter (fun p => p.name == n) = _
    rw [List.filter_append]
    have hnil : g.people.filter (fun p => p.name == n) = [] :=
      personNodes_nil (by simpa using h)
    rw [hnil]
    simp

/-- C5: for every node type and key, upserting twice with the same key leaves
exactly one node with that key, and the stored attributes after the second
call are exactly the attributes of the second call — a full overwrite on
every upsert, including overwriting fields with absent values. -/
theorem upsert_twice_full_overwrite (g : Graph) (t : String) (r₁ r₂ : Option Int)
    (s₁ s₂ : Option String) (n : String) (b₁ b₂ : Option Int)
    (hmn : (g.movies.map Movie.title).Nodup)
    (hpn : (g.people.map Person.name).Nodup) :
    (addMovie (addMovie g t r₁ s₁) t r₂ s₂).movies.filter (fun m => m.title == t)
        = [⟨t, r₂, s₂⟩]
    ∧ (addMovie (addMovie g t r₁ s₁) t r₂ s₂).movies.countP (fun m => m.title == t) = 1
    ∧ (addPerson (addPerson g n b₁) n b₂).people.filter (fun p => p.name == n)
        = [⟨n, b₂⟩]
    ∧ (addPerson (addPerson g n b₁) n b₂).people.countP (fun p => p.name == n) = 1 := by
  have hm₁ := addMovie_nodup t r₁ s₁ hmn
  have hp₁ := addPerson_nodup n b₁ hpn
  have hmf := addMovie_filter t r₂ s₂ hm₁
  have hpf := addPerson_filter n b₂ hp₁
  refine ⟨hmf, ?_, hpf, ?_⟩
  · rw [List.countP_eq_length_filter, hmf]; rfl
  · rw [List.countP_eq_length_filter, hpf]; rfl

/-- Witness for C5 at a concrete store: two upserts of Dune leave exactly the
second attributes, including the tagline overwritten back to absent. -/
theorem upsert_twice_full_overwrite_w :
    (addMovie (addMovie gDuneOnly "Dune" (some 1984) (some "x")) "Dune" (some 2021) none).movies.filter
        (fun m => m.title == "Dune") = [⟨"Dune", some 2021, none⟩] :=
  (upsert_twice_full_overwrite gDuneOnly "Dune" (some 1984) (some 2021) (some "x") none
    "Ann" none none (by decide) (by decide)).1

/-- Inversion of a successful deleteMovie. -/
theorem deleteMovie_ok {g : Graph} {t : String} {g₂ : Graph}
    (h : deleteMovie g t = Except.ok g₂) :
    movieExists g t = true ∧
      g₂ = ⟨g.movies.filter (fun m => !(m.title == t)), g.people, g.genres, g.studios,
        g.actedIn.filter (fun e => !(e.movie == t)),
        g.directedBy.filter (fun e => !(e.movie == t)),
        g.hasGenre.filter (fun e => !(e.movie == t)),
        g.produced.filter (fun e => !(e.movie == t))⟩ := by
  unfold deleteMovie at h
  by_cases hm : movieExists g t = true
  · rw [if_pos hm] at h
    exact ⟨hm, (Except.ok.inj h).symm⟩
  · rw [if_neg hm] at h
    exact absurd h (by simp)

/-- Inversion of a successful deletePerson. -/
theorem deletePerson_ok {g : Graph} {n : String} {g₂ : Graph}
    (h : deletePerson g n = Except.ok g₂) :
    personExists g n = true ∧
      g₂ = ⟨g.movies, g.people.filter (fun p => !(p.name == n)), g.genres, g.studios,
        g.actedIn.filter (fun e => !(e.person == n)),
        g.directedBy.filter (fun e => !(e.person == n)),
        g.hasGenre, g.produced⟩ := by
  unfold deletePerson at h
  by_cases hp : personExists g n = true
  · rw [if_pos hp] at h
    exact ⟨hp, (Except.ok.inj h).symm⟩
  · rw [if_neg hp] at h
    exact absurd h (by simp)

/-- Any movie returned by getMoviesByActor is a stored Movie node carrying
that title. -/
theorem moviesByActor_title_mem {g : Graph} {a : String} {row : MovieByActorRow}
    (h : row ∈ getMoviesByActor g a) : ∃ m ∈ g.movies, m.title = row.title := by
  rw [getMoviesByActor] at h
  rcases List.mem_flatMap.mp h with ⟨p, _, h₁⟩
  rcases List.mem_flatMap.mp h₁ with ⟨e, _, h₂⟩
  rcases List.mem_map.mp h₂ with ⟨m, hm, hrow⟩
  exact ⟨m, List.mem_filter.mp hm |>.1, by rw [← hrow]⟩

/-- Any movie returned by getMoviesDirectedByPerson is a stored Movie node. -/
theorem moviesDirected_mem {g : Graph} {d : String} {m : Movie}
    (h : m ∈ getMoviesDirectedByPerson g d) : m ∈ g.movies := by
  rw [getMoviesDirectedByPerson] at h
  rcases List.mem_flatMap.mp h with ⟨p, _, h₁⟩
  rcases List.mem_flatMap.mp h₁ with ⟨e, _, h₂⟩
  exact List.mem_filter.mp h₂ |>.1

/-- Any movie returned by getMoviesByGenre is a stored Movie node. -/
theorem moviesByGenre_mem {g : Graph} {x : String} {m : Movie}
    (h : m ∈ getMoviesByGenre g x) : m ∈ g.movies := by
  rw [getMoviesByGenre] at h
  rcases List.mem_flatMap.mp h with ⟨gn, _, h₁⟩
  rcases List.mem_flatMap.mp h₁ with ⟨e, _, h₂⟩
  exact List.mem_filter.mp h₂ |>.1

/-- Any movie returned by getMoviesByStudio is a stored Movie node. -/
theorem moviesByStudio_mem {g : Graph} {x : String} {m : Movie}
    (h : m ∈ getMoviesByStudio g x) : m ∈ g.movies := by
  rw [getMoviesByStudio] at h
  rcases List.mem_flatMap.mp h with ⟨s, _, h₁⟩
  rcases List.mem_flatMap.mp h₁ with ⟨e, _, h₂⟩
  exact List.mem_filter.mp h₂ |>.1

/-- Any name returned by getActorsInMovie names a stored Person node. -/
theorem actorsInMovie_name_mem {g : Graph} {t : String} {row : String × List String}
    (h : row ∈ getActorsInMovie g t) : ∃ p ∈ g.people, p.name = row.1 := by
  rw [getActorsInMovie] at h
  rcases List.mem_flatMap.mp h with ⟨m, _, h₁⟩
  rcases List.mem_flatMap.mp h₁ with ⟨e, _, h₂⟩
  rcases List.mem_map.mp h₂ with ⟨p, hp, hrow⟩
  exact ⟨p, List.mem_filter.mp hp |>.1, by rw [← hrow]⟩

/-- Any co-actor row names a stored Person node. -/
theorem coActorRows_name_mem {g : Graph} {a : String} {row : String × String}
    (h : row ∈ coActorRows g a) : ∃ p ∈ g.people, p.name = row.1 := by
  rw [coActorRows] at h
  rcases List.mem_flatMap.mp h with ⟨p₁, _, h₁⟩
  rcases List.mem_flatMap.mp h₁ with ⟨e₁, _, h₂⟩
  rcases List.mem_flatMap.mp h₂ with ⟨m, _, h₃⟩
  rcases List.mem_flatMap.mp h₃ with ⟨e₂, _, h₄⟩
  rcases List.mem_map.mp h₄ with ⟨p₂, hp₂, hrow⟩
  have hp₂' := List.mem_filter.mp hp₂ |>.1
  exact ⟨p₂, List.mem_filter.mp hp₂' |>.1, by rw [← hrow]⟩

/-- Any getCoActors entry names a stored Person node. -/
theorem coActors_name_mem {g : Graph} {a : String} {row : String × Nat}
    (h : row ∈ getCoActors g a) : ∃ p ∈ g.people, p.name = row.1 := by
  rw [getCoActors] at h
  rw [List.mem_mergeSort] at h
  rw [aggregateCounts] at h
  rcases List.mem_map.mp h with ⟨n, hn, hrow⟩
  have hn' : n ∈ (coActorRows g a).map Prod.fst := List.mem_dedup.mp hn
  rcases List.mem_map.mp hn' with ⟨r, hr, hrn⟩
  rcases coActorRows_name_mem hr with ⟨p, hp, hpn⟩
  exact ⟨p, hp, by rw [hpn, hrn, ← hrow]⟩

/-- C6: deleting a present node succeeds and removes the node together with
every edge in which it is source or target, so that no neighbor query from a
former neighbor still includes it; deleting an absent node fails with
NotFound. -/
theorem delete_detaches (g : Graph) (t n : String) :
    (movieExists g t = false → deleteMovie g t = Except.error ServiceError.notFound)
    ∧ (personExists g n = false → deletePerson g n = Except.error ServiceError.notFound)
    ∧ (movieExists g t = true → ∃ g₂, deleteMovie g t = Except.ok g₂)
    ∧ (personExists g n = true → ∃ g₂, deletePerson g n = Except.ok g₂)
    ∧ (∀ g₂, deleteMovie g t = Except.ok g₂ →
        movieExists g₂ t = false
        ∧ (∀ e ∈ g₂.actedIn, ¬e.movie = t)
        ∧ (∀ e ∈ g₂.directedBy, ¬e.movie = t)
        ∧ (∀ e ∈ g₂.hasGenre, ¬e.movie = t)
        ∧ (∀ e ∈ g₂.produced, ¬e.movie = t)
        ∧ (∀ a row, row ∈ getMoviesByActor g₂ a → ¬row.title = t)
        ∧ (∀ d m, m ∈ getMoviesDirectedByPerson g₂ d → ¬m.title = t)
        ∧ (∀ x m, m ∈ getMoviesByGenre g₂ x → ¬m.title = t)
        ∧ (∀ x m, m ∈ getMoviesByStudio g₂ x → ¬m.title = t))
    ∧ (∀ g₂, deletePerson g n = Except.ok g₂ →
        personExists g₂ n = false
        ∧ (∀ e ∈ g₂.actedIn, ¬e.person = n)
        ∧ (∀ e ∈ g₂.directedBy, ¬e.person = n)
        ∧ (∀ x row, row ∈ getActorsInMovie g₂ x → ¬row.1 = n)
        ∧ (∀ a row, row ∈ getCoActors g₂ a → ¬row.1 = n)) := by
  refine ⟨?_, ?_, ?_, ?_, ?_, ?_⟩
  · intro h; rw [deleteMovie, if_neg (by simp [h])]
  · intro h; rw [deletePerson, if_neg (by simp [h])]
  · intro h; exact ⟨_, by rw [deleteMovie, if_pos h]⟩
  · intro h; exact ⟨_, by rw [deletePerson, if_pos h]⟩
  · intro g₂ h
    obtain ⟨_, hg₂⟩ := deleteMovie_ok h
    subst hg₂
    have hnomov : ∀ m ∈ g.movies.filter (fun m => !(m.title == t)), ¬m.title = t := by
      intro m hm
      have := List.mem_filter.mp hm |>.2
      simpa using this
    refine ⟨?_, ?_, ?_, ?_, ?_, ?_, ?_, ?_, ?_⟩
    · rw [movieExists, List.any_eq_false]
      intro m hm
      simpa using hnomov m hm
    · intro e he; simpa using (List.mem_filter.mp he).2
    · intro e he; simpa using (List.mem_filter.mp he).2
    · intro e he; simpa using (List.mem_filter.mp he).2
    · intro e he; simpa using (List.mem_filter.mp he).2
    · intro a row hrow
      rcases moviesByActor_title_mem hrow with ⟨m, hm, hmt⟩
      rw [← hmt]
      exact hnomov m hm
    · intro d m hm
      exact hnomov m (moviesDirected_mem hm)
    · intro x m hm
      exact hnomov m (moviesByGenre_mem hm)
    · intro x m hm
      exact hnomov m (moviesByStudio_mem hm)
  · intro g₂ h
    obtain ⟨_, hg₂⟩ := deletePerson_ok h
    subst hg₂
    have hnoper : ∀ p ∈ g.people.filter (fun p => !(p.name == n)), ¬p.name = n := by
      intro p hp
      have := List.mem_filter.mp hp |>.2
      simpa using this
    refine ⟨?_, ?_, ?_, ?_, ?_⟩
    · rw [personExists, List.any_eq_false]
      intro p hp
      simpa using hnoper p hp
    · intro e he; simpa using (List.mem_filter.mp he).2
    · intro e he; simpa using (List.mem_filter.mp he).2
    · intro x row hrow
      rcases actorsInMovie_name_mem hrow with ⟨p, hp, hpn⟩
      rw [← hpn]
      exact hnoper p hp
    · intro a row hrow
      rcases coActors_name_mem hrow with ⟨p, hp, hpn⟩
      rw [← hpn]
      exact hnoper p hp

/-- Witness for C6 at a concrete store: deleting Dune succeeds and the former
co-star neighborhood of Ann no longer lists it, while deleting it again
reports NotFound. -/
theorem delete_detaches_w :
    (∃ g₂, deleteMovie gDelete "Dune" = Except.ok g₂
      ∧ movieExists g₂ "Dune" = false
      ∧ ∀ row ∈ getMoviesByActor g₂ "Ann", ¬row.title = "Dune")
    ∧ deleteMovie gEmpty "Dune" = Except.error ServiceError.notFound := by
  constructor
  · obtain ⟨g₂, hg₂⟩ := (delete_detaches gDelete "Dune" "Ann").2.2.1 (by decide)
    refine ⟨g₂, hg₂, ?_, ?_⟩
    · exact ((delete_detaches gDelete "Dune" "Ann").2.2.2.2.1 g₂ hg₂).1
    · intro row hrow
      exact ((delete_detaches gDelete "Dune" "Ann").2.2.2.2.1 g₂ hg₂).2.2.2.2.2.1 "Ann" row hrow
  · exact (delete_detaches gEmpty "Dune" "Ann").1 (by decide)

/-- C10: deleteRelationship matches endpoints only by property value, not by
node label: for each relationship type going from a named node to a titled
node it deletes every edge of that type between the named endpoints — in
particular a Studio to Movie PRODUCED edge — and fails with NotFound exactly
when no such edge exists, leaving the graph unchanged since the write query
then touched nothing; HAS_GENRE edges can never match because their source is
a Movie, which carries no name property. -/
theorem deleteRelationship_semantics (g : Graph) (f t : String) :
    (deleteRelationship g f t "ACTED_IN" = Except.error ServiceError.notFound
      ↔ ∀ e ∈ g.actedIn, ¬(e.person = f ∧ e.movie = t))
    ∧ (∀ g₂, deleteRelationship g f t "ACTED_IN" = Except.ok g₂ →
        g₂ = { g with actedIn := g.actedIn.filter (fun e => !(e.person == f && e.movie == t)) })
    ∧ (deleteRelationship g f t "DIRECTED" = Except.error ServiceError.notFound
      ↔ ∀ e ∈ g.directedBy, ¬(e.person = f ∧ e.movie = t))
    ∧ (∀ g₂, deleteRelationship g f t "DIRECTED" = Except.ok g₂ →
        g₂ = { g with directedBy := g.directedBy.filter (fun e => !(e.person == f && e.movie == t)) })
    ∧ (deleteRelationship g f t "PRODUCED" = Except.error ServiceError.notFound
      ↔ ∀ e ∈ g.produced, ¬(e.studio = f ∧ e.movie = t))
    ∧ (∀ g₂, deleteRelationship g f t "PRODUCED" = Except.ok g₂ →
        g₂ = { g with produced := g.produced.filter (fun e => !(e.studio == f && e.movie == t)) })
    ∧ deleteRelationship g f t "HAS_GENRE" = Except.error ServiceError.notFound := by
  have hA : deleteRelationship g f t "ACTED_IN" =
      if g.actedIn.any (fun e => e.person == f && e.movie == t) then
        Except.ok { g with actedIn := g.actedIn.filter (fun e => !(e.person == f && e.movie == t)) }
      else Except.error ServiceError.notFound := by
    simp [deleteRelationship]
  have hD : deleteRelationship g f t "DIRECTED" =
      if g.directedBy.any (fun e => e.person == f && e.movie == t) then
        Except.ok { g with directedBy := g.directedBy.filter (fun e => !(e.person == f && e.movie == t)) }
      else Except.error ServiceError.notFound := by
    simp [deleteRelationship]
  have hP : deleteRelationship g f t "PRODUCED" =
      if g.produced.any (fun e => e.studio == f && e.movie == t) then
        Except.ok { g with produced := g.produced.filter (fun e => !(e.studio == f && e.movie == t)) }
      else Except.error ServiceError.notFound := by
    simp [deleteRelationship]
  refine ⟨?_, ?_, ?_, ?_, ?_, ?_, by simp [deleteRelationship]⟩
  · rw [hA]
    by_cases h : g.actedIn.any (fun e => e.person == f && e.movie == t) = true
    · rw [if_pos h]
      simp only [List.any_eq_true] at h
      rcases h with ⟨e, he, hee⟩
      constructor
      · intro hcontra; exact absurd hcontra (by simp)
      · intro hall
        exact absurd (by simpa using hee) (hall e he)
    · rw [if_neg h]
      refine ⟨fun _ => ?_, fun _ => rfl⟩
      intro e he hee
      exact h (List.any_eq_true.mpr ⟨e, he, by simp [hee.1, hee.2]⟩)
  · intro g₂ hok
    rw [hA] at hok
    by_cases h : g.actedIn.any (fun e => e.person == f && e.movie == t) = true
    · rw [if_pos h] at hok; exact (Except.ok.inj hok).symm
    · rw [if_neg h] at hok; exact absurd hok (by simp)
  · rw [hD]
    by_cases h : g.directedBy.any (fun e => e.person == f && e.movie == t) = true
    · rw [if_pos h]
      simp only [List.any_eq_true] at h
      rcases h with ⟨e, he, hee⟩
      constructor
      · intro hcontra; exact absurd hcontra (by simp)
      · intro hall
        exact absurd (by simpa using hee) (hall e he)
    · rw [if_neg h]
      refine ⟨fun _ => ?_, fun _ => rfl⟩
      intro e he hee
      exact h (List.any_eq_true.mpr ⟨e, he, by simp [hee.1, hee.2]⟩)
  · intro g₂ hok
    rw [hD] at hok
    by_cases h : g.directedBy.any (fun e => e.person == f && e.movie == t) = true
    · rw [if_pos h] at hok; exact (Except.ok.inj hok).symm
    · rw [if_neg h] at hok; exact absurd hok (by simp)
  · rw [hP]
    by_cases h : g.produced.any (fun e => e.studio == f && e.movie == t) = true
    · rw [if_pos h]
      simp only [List.any_eq_true] at h
      rcases h with ⟨e, he, hee⟩
      constructor
      · intro hcontra; exact absurd hcontra (by simp)
      · intro hall
        exact absurd (by simpa using hee) (hall e he)
    · rw [if_neg h]
      refine ⟨fun _ => ?_, fun _ => rfl⟩
      intro e he hee
      exact h (List.any_eq_true.mpr ⟨e, he, by simp [hee.1, hee.2]⟩)
  · intro g₂ hok
    rw [hP] at hok
    by_cases h : g.produced.any (fun e => e.studio == f && e.movie == t) = true
    · rw [if_pos h] at hok; exact (Except.ok.inj hok).symm
    · rw [if_neg h] at hok; exact absurd hok (by simp)

/-- Witness for C10 at a concrete store: the Studio to Movie PRODUCED edge is
matched by the studio name and the movie title and gets deleted, and asking
again afterwards reports NotFound. -/
theorem deleteRelationship_semantics_w :
    (∀ g₂, deleteRelationship gStudio "WB" "Dune" "PRODUCED" = Except.ok g₂ →
      g₂ = { gStudio with produced := [] })
    ∧ deleteRelationship gEmpty "WB" "Dune" "PRODUCED" = Except.error ServiceError.notFound := by
  constructor
  · intro g₂ h
    have := (deleteRelationship_semantics gStudio "WB" "Dune").2.2.2.2.2.1 g₂ h
    rw [this]
    rfl
  · exact (deleteRelationship_semantics gEmpty "WB" "Dune").2.2.2.2.1.mpr (by simp [gEmpty])

/-- Counterexample to C2: with the movie Dune present but no Genre node at
all, connecting it to the absent genre Sci-Fi does not fail with NotFound —
it succeeds, creating the Genre node and the edge, because the genre endpoint
is merged rather than matched. -/
theorem connectMovieToGenre_creates_missing_genre :
    genreExists gDuneOnly "Sci-Fi" = false
    ∧ connectMovieToGenre gDuneOnly "Dune" ["Sci-Fi"]
        = Except.ok ⟨[⟨"Dune", some 2021, none⟩], [], ["Sci-Fi"], [], [], [],
            [⟨"Dune", "Sci-Fi"⟩], []⟩ := by
  exact ⟨rfl, rfl⟩

/-- Merging a genre node leaves the HAS_GENRE edges alone. -/
theorem mergeGenreNode_hasGenre (g : Graph) (x : String) :
    (mergeGenreNode g x).hasGenre = g.hasGenre := by
  unfold mergeGenreNode
  split <;> rfl

/-- Merging a HAS_GENRE edge leaves the Genre nodes alone. -/
theorem mergeHasGenreEdge_genres (g : Graph) (mt x : String) :
    (mergeHasGenreEdge g mt x).genres = g.genres := by
  unfold mergeHasGenreEdge
  split <;> rfl

/-- Merging a genre node makes it exist. -/
theorem mergeGenreNode_establishes (g : Graph) (x : String) :
    genreExists (mergeGenreNode g x) x = true := by
  unfold mergeGenreNode
  by_cases h : genreExists g x = true
  · rw [if_pos h]; exact h
  · rw [if_neg h]
    simp [genreExists, List.any_append]

/-- Merging a genre node preserves existing genres. -/
theorem mergeGenreNode_mono (g : Graph) (x y : String)
    (h : genreExists g y = true) : genreExists (mergeGenreNode g x) y = true := by
  unfold mergeGenreNode
  by_cases hx : genreExists g x = true
  · rw [if_pos hx]; exact h
  · rw [if_neg hx]
    simp only [genreExists, List.any_append]
    rw [genreExists] at h
    rw [h]
    rfl

/-- Merging a HAS_GENRE edge makes it present. -/
theorem mergeHasGenreEdge_establishes (g : Graph) (mt x : String) :
    (mergeHasGenreEdge g mt x).hasGenre.any
      (fun e => e.movie == mt && e.genre == x) = true := by
  unfold mergeHasGenreEdge
  by_cases h : g.hasGenre.any (fun e => e.movie == mt && e.genre == x) = true
  · rw [if_pos h]; exact h
  · rw [if_neg h]
    simp [List.any_append]

/-- Merging a HAS_GENRE edge preserves any present edge. -/
theorem mergeHasGenreEdge_mono (g : Graph) (mt x : String) (p : HasGenre → Bool)
    (h : g.hasGenre.any p = true) : (mergeHasGenreEdge g mt x).hasGenre.any p = true := by
  unfold mergeHasGenreEdge
  by_cases hx : g.hasGenre.any (fun e => e.movie == mt && e.genre == x) = true
  · rw [if_pos hx]; exact h
  · rw [if_neg hx]
    simp only [List.any_append]
    rw [h]
    rfl

/-- Once a genre and its edge are present, the rest of the UNWIND fold keeps
them present. -/
theorem connectFold_preserves (mt x : String) :
    ∀ (l : List String) (g : Graph),
      genreExists g x = true →
      g.hasGenre.any (fun e => e.movie == mt && e.genre == x) = true →
      genreExists (l.foldl (fun acc gn => mergeHasGenreEdge (mergeGenreNode acc gn) mt gn) g) x = true
      ∧ (l.foldl (fun acc gn => mergeHasGenreEdge (mergeGenreNode acc gn) mt gn) g).hasGenre.any
          (fun e => e.movie == mt && e.genre == x) = true := by
  intro l
  induction l with
  | nil => intro g h₁ h₂; exact ⟨h₁, h₂⟩
  | cons a tl ih =>
      intro g h₁ h₂
      rw [List.foldl_cons]
      apply ih
      · show genreExists (mergeHasGenreEdge (mergeGenreNode g a) mt a) x = true
        rw [genreExists, mergeHasGenreEdge_genres]
        exact mergeGenreNode_mono g a x h₁
      · apply mergeHasGenreEdge_mono
        rw [mergeGenreNode_hasGenre]
        exact h₂

/-- Every genre name handled by the UNWIND fold ends up existing and
connected. -/
theorem connectFold_establishes (mt : String) :
    ∀ (l : List String) (g : Graph) (x : String), x ∈ l →
      genreExists (l.foldl (fun acc gn => mergeHasGenreEdge (mergeGenreNode acc gn) mt gn) g) x = true
      ∧ (l.foldl (fun acc gn => mergeHasGenreEdge (mergeGenreNode acc gn) mt gn) g).hasGenre.any
          (fun e => e.movie == mt && e.genre == x) = true := by
  intro l
  induction l with
  | nil => intro g x hx; exact absurd hx (List.not_mem_nil x)
  | cons a tl ih =>
      intro g x hx
      rw [List.foldl_cons]
      rcases List.mem_cons.mp hx with hxa | hxtl
      · subst hxa
        apply connectFold_preserves
        · show genreExists (mergeHasGenreEdge (mergeGenreNode g x) mt x) x = true
          rw [genreExists, mergeHasGenreEdge_genres]
          exact mergeGenreNode_establishes g x
        · exact mergeHasGenreEdge_establishes (mergeGenreNode g x) mt x
      · exact ih _ x hxtl

/-- C2 amended: connectActorToMovie, connectDirectorToMovie and
connectStudioToMovie fail with NotFound exactly when one of their endpoints
is absent, creating nothing in that case; connectMovieToGenre fails with
NotFound only when the movie anchor is absent (or the genre list is empty) —
an absent genre endpoint is created by the MERGE together with its edge
rather than reported as NotFound. -/
theorem connect_endpoint_checks (g : Graph) (a d s mt : String)
    (roles gns : List String) :
    (connectActorToMovie g a mt roles = Except.error ServiceError.notFound
      ↔ ¬(personExists g a = true ∧ movieExists g mt = true))
    ∧ (connectDirectorToMovie g d mt = Except.error ServiceError.notFound
      ↔ ¬(personExists g d = true ∧ movieExists g mt = true))
    ∧ (connectStudioToMovie g s mt = Except.error ServiceError.notFound
      ↔ ¬(studioExists g s = true ∧ movieExists g mt = true))
    ∧ (movieExists g mt = false →
        connectMovieToGenre g mt gns = Except.error ServiceError.notFound)
    ∧ (gns = [] →
        connectMovieToGenre g mt gns = Except.error ServiceError.notFound)
    ∧ (movieExists g mt = true → gns ≠ [] →
        ∃ g₂, connectMovieToGenre g mt gns = Except.ok g₂
          ∧ ∀ x ∈ gns, genreExists g₂ x = true
            ∧ g₂.hasGenre.any (fun e => e.movie == mt && e.genre == x) = true) := by
  refine ⟨?_, ?_, ?_, ?_, ?_, ?_⟩
  · by_cases hc : (personExists g a && movieExists g mt) = true
    · have hne : connectActorToMovie g a mt roles ≠ Except.error ServiceError.notFound := by
        rw [connectActorToMovie, if_pos hc]
        split <;> simp
      have hand : personExists g a = true ∧ movieExists g mt = true := by simpa using hc
      exact ⟨fun h => absurd h hne, fun h => absurd hand h⟩
    · rw [connectActorToMovie, if_neg hc]
      simp only [true_iff]
      intro hand
      exact hc (by simpa using hand)
  · by_cases hc : (personExists g d && movieExists g mt) = true
    · have hne : connectDirectorToMovie g d mt ≠ Except.error ServiceError.notFound := by
        rw [connectDirectorToMovie, if_pos hc]
        split <;> simp
      have hand : personExists g d = true ∧ movieExists g mt = true := by simpa using hc
      exact ⟨fun h => absurd h hne, fun h => absurd hand h⟩
    · rw [connectDirectorToMovie, if_neg hc]
      simp only [true_iff]
      intro hand
      exact hc (by simpa using hand)
  · by_cases hc : (studioExists g s && movieExists g mt) = true
    · have hne : connectStudioToMovie g s mt ≠ Except.error ServiceError.notFound := by
        rw [connectStudioToMovie, if_pos hc]
        split <;> simp
      have hand : studioExists g s = true ∧ movieExists g mt = true := by simpa using hc
      exact ⟨fun h => absurd h hne, fun h => absurd hand h⟩
    · rw [connectStudioToMovie, if_neg hc]
      simp only [true_iff]
      intro hand
      exact hc (by simpa using hand)
  · intro h
    rw [connectMovieToGenre, if_neg (by simp [h])]
  · intro h
    subst h
    rw [connectMovieToGenre]
    by_cases hm : movieExists g mt = true
    · rw [if_pos hm]; rfl
    · rw [if_neg hm]
  · intro hm hne
    rw [connectMovieToGenre, if_pos hm, if_neg (by simpa using hne)]
    exact ⟨_, rfl, fun x hx => connectFold_establishes mt gns g x hx⟩

/-- Witness for C2 at concrete stores: connecting an absent actor fails with
NotFound, while connecting an existing movie to an absent genre succeeds and
creates the genre. -/
theorem connect_endpoint_checks_w :
    connectActorToMovie gDuneOnly "Ann" "Dune" ["x"] = Except.error ServiceError.notFound
    ∧ ∃ g₂, connectMovieToGenre gDuneOnly "Dune" ["Sci-Fi"] = Except.ok g₂
        ∧ genreExists g₂ "Sci-Fi" = true := by
  constructor
  · exact (connect_endpoint_checks gDuneOnly "Ann" "d" "s" "Dune" ["x"] ["Sci-Fi"]).1.mpr
      (by decide)
  · obtain ⟨g₂, h₁, h₂⟩ :=
      (connect_endpoint_checks gDuneOnly "Ann" "d" "s" "Dune" ["x"] ["Sci-Fi"]).2.2.2.2.2
        (by decide) (by decide)
    exact ⟨g₂, h₁, (h₂ "Sci-Fi" (by simp)).1⟩

/-- A flatMap all of whose images are empty is empty. -/
theorem flatMap_nil_of {α β : Type} {l : List α} {f : α → List β}
    (h : ∀ x ∈ l, f x = []) : l.flatMap f = [] := by
  induction l with
  | nil => rfl
  | cons a tl ih =>
      rw [List.flatMap_cons, h a (List.mem_cons_self a tl),
        ih fun x hx => h x (List.mem_cons_of_mem a hx), List.nil_append]

/-- C9: asking for the movies shared by an actor and that same actor returns
the empty list, never the filmography: the MATCH pattern needs two distinct
ACTED_IN relationships into the same movie, and at most one ACTED_IN edge
exists per person and movie pair. -/
theorem sharedMovies_self_empty (g : Graph) (a : String)
    (hen : (g.actedIn.map (fun e => (e.person, e.movie))).Nodup) :
    getSharedMoviesBetweenActors g a a = [] := by
  rw [getSharedMoviesBetweenActors, List.eq_nil_iff_forall_not_mem]
  intro m hm
  rw [List.mem_mergeSort] at hm
  rcases List.mem_flatMap.mp hm with ⟨p₁, hp₁, h₁⟩
  rcases List.mem_flatMap.mp h₁ with ⟨e₁, he₁, h₂⟩
  rcases List.mem_flatMap.mp h₂ with ⟨m', hm', h₃⟩
  rcases List.mem_flatMap.mp h₃ with ⟨e₂, he₂, h₄⟩
  rcases List.mem_map.mp h₄ with ⟨p₂, hp₂, _⟩
  have hp₁a : p₁.name = a := by simpa using (List.mem_filter.mp hp₁).2
  have he₁m : e₁ ∈ g.actedIn := (List.mem_filter.mp he₁).1
  have he₁p : e₁.person = p₁.name := by simpa using (List.mem_filter.mp he₁).2
  have hm't : m'.title = e₁.movie := by simpa using (List.mem_filter.mp hm').2
  have he₂m : e₂ ∈ g.actedIn := (List.mem_filter.mp he₂).1
  have he₂c : e₂.movie = m'.title ∧ ¬e₂ = e₁ := by
    simpa using (List.mem_filter.mp he₂).2
  have hp₂e : p₂.name = e₂.person := by simpa using (List.mem_filter.mp hp₂).2
  have hp₂a : p₂.name = a := by
    simpa using (List.mem_filter.mp (List.mem_filter.mp hp₂).1).2
  have hpair : (e₂.person, e₂.movie) = (e₁.person, e₁.movie) := by
    rw [← hp₂e, hp₂a, he₁p, hp₁a, he₂c.1, hm't]
  exact he₂c.2 (keyed_inj (fun e => (e.person, e.movie)) hen he₂m he₁m hpair)

/-- Witness for C9 at a concrete store: Ann acted in two movies, yet the
shared movies of Ann with Ann are none. -/
theorem sharedMovies_self_empty_w :
    getSharedMoviesBetweenActors gAnnTwoMovies "Ann" "Ann" = [] :=
  sharedMovies_self_empty gAnnTwoMovies "Ann" (by decide)

/-- A flatMap of the constant empty image is empty. -/
theorem flatMap_constNil {α β : Type} (l : List α) :
    (l.flatMap fun _ => ([] : List β)) = [] := flatMap_nil_of (fun _ _ => rfl)

/-- C8: every read-only traversal or ranking query called with an absent
anchor key returns the empty result set (or null for the singular lookups and
the path search), never a NotFound error — structurally these queries return
plain result lists and cannot raise; NotFound arises only in the mutation
paths. -/
theorem absent_anchor_reads_empty (g : Graph) (a t : String)
    (hpa : personExists g a = false) (hmt : movieExists g t = false) :
    getMoviesByActor g a = []
    ∧ getMoviesDirectedByPerson g a = []
    ∧ getCoActors g a = []
    ∧ (∀ b, getSharedMoviesBetweenActors g a b = []
        ∧ getSharedMoviesBetweenActors g b a = [])
    ∧ (∀ b, findCommonDirectorsBetweenActors g a b = []
        ∧ findCommonDirectorsBetweenActors g b a = [])
    ∧ (∀ b, getShortestPathBetweenActors g a b = none
        ∧ getShortestPathBetweenActors g b a = none)
    ∧ getActorsInMovie g t = []
    ∧ getMovieByTitle g t = none
    ∧ recommendMoviesBySharedGenres g t = []
    ∧ recommendMoviesBySharedCastCrew g t = [] := by
  have hP : personNodes g a = [] := personNodes_nil hpa
  have hM : movieNodes g t = [] := movieNodes_nil hmt
  refine ⟨?_, ?_, ?_, ?_, ?_, ?_, ?_, ?_, ?_, ?_⟩
  · rw [getMoviesByActor, hP]; rfl
  · rw [getMoviesDirectedByPerson, hP]; rfl
  · simp [getCoActors, coActorRows, hP, aggregateCounts, flatMap_constNil]
  · intro b
    constructor
    · simp [getSharedMoviesBetweenActors, hP]
    · simp [getSharedMoviesBetweenActors, hP, flatMap_constNil]
  · intro b
    constructor
    · simp [findCommonDirectorsBetweenActors, hP]
    · simp [findCommonDirectorsBetweenActors, hP, flatMap_constNil]
  · intro b
    constructor <;> · rw [getShortestPathBetweenActors, if_neg (by simp [hpa])]
  · rw [getActorsInMovie, hM]; rfl
  · rw [getMovieByTitle, hM]; rfl
  · simp [recommendMoviesBySharedGenres, sharedGenreRows, hM, groupRecRows, flatMap_constNil]
  · simp [recommendMoviesBySharedCastCrew, castCrewRows, hM, groupCastCrewRows, flatMap_constNil]

/-- Witness for C8 at a concrete store: anchors that name nothing give empty
results and null, not an error. -/
theorem absent_anchor_reads_empty_w :
    getCoActors gDuneOnly "Ghost" = []
    ∧ recommendMoviesBySharedGenres gDuneOnly "Nope" = []
    ∧ getShortestPathBetweenActors gDuneOnly "Ghost" "Ghost" = none := by
  have h := absent_anchor_reads_empty gDuneOnly "Ghost" "Nope" (by decide) (by decide)
  exact ⟨h.2.2.1, h.2.2.2.2.2.2.2.2.1, (h.2.2.2.2.2.1 "Ghost").1⟩

/-- Facts about sorting and slicing behind the pagination endpoints, generic
in the node type and its string key. -/
theorem paginate_facts {α : Type} (key : α → String) (l : List α) (page limit : Nat)
    (hp : 1 ≤ page) (hl : 1 ≤ limit) :
    (l.mergeSort (fun a b => decide (key a ≤ key b))).Perm l
    ∧ (l.mergeSort (fun a b => decide (key a ≤ key b))).Pairwise (fun a b => key a ≤ key b)
    ∧ (((l.mergeSort (fun a b => decide (key a ≤ key b))).drop ((page - 1) * limit)).take
        limit).Pairwise (fun a b => key a ≤ key b)
    ∧ (∀ k, ceilDiv l.length limit ≤ k ↔ l.length ≤ k * limit)
    ∧ (ceilDiv l.length limit < page →
        ((l.mergeSort (fun a b => decide (key a ≤ key b))).drop ((page - 1) * limit)).take
          limit = [])
    ∧ (l.length = 15 → page = 2 → limit = 10 →
        (((l.mergeSort (fun a b => decide (key a ≤ key b))).drop ((page - 1) * limit)).take
            limit).length = 5
        ∧ ((l.mergeSort (fun a b => decide (key a ≤ key b))).drop ((page - 1) * limit)).take
            limit = (l.mergeSort (fun a b => decide (key a ≤ key b))).drop 10) := by
  have hl0 : 0 < limit := hl
  have hsorted : (l.mergeSort (fun a b => decide (key a ≤ key b))).Pairwise
      (fun a b => key a ≤ key b) := by
    have h := @List.sorted_mergeSort α
      (fun a b => decide (key a ≤ key b))
      (fun a b c hab hbc =>
        decide_eq_true (le_trans (of_decide_eq_true hab) (of_decide_eq_true hbc)))
      (fun a b => by rcases le_total (key a) (key b) with h | h <;> simp [h]) l
    exact h.imp (fun hab => of_decide_eq_true hab)
  have hgalois : ∀ k, ceilDiv l.length limit ≤ k ↔ l.length ≤ k * limit := by
    intro k
    unfold ceilDiv
    have hmul : (k + 1) * limit = k * limit + limit := by ring
    constructor
    · intro h
      have h₂ := (Nat.div_lt_iff_lt_mul hl0).mp (Nat.lt_succ_of_le h)
      rw [Nat.succ_mul] at h₂
      omega
    · intro h
      have h₂ : l.length + limit - 1 < (k + 1) * limit := by omega
      exact Nat.le_of_lt_succ ((Nat.div_lt_iff_lt_mul hl0).mpr h₂)
  refine ⟨List.mergeSort_perm l _, hsorted, ?_, hgalois, ?_, ?_⟩
  · exact hsorted.sublist ((List.take_sublist _ _).trans (List.drop_sublist _ _))
  · intro hlt
    have hle : l.length ≤ (page - 1) * limit := by
      have := (hgalois (page - 1)).mp (by omega)
      exact this
    have hdrop : (l.mergeSort (fun a b => decide (key a ≤ key b))).drop
        ((page - 1) * limit) = [] := by
      rw [List.drop_eq_nil_iff, List.length_mergeSort]
      exact hle
    rw [hdrop, List.take_nil]
  · intro h15 hpage hlimit
    subst hpage hlimit
    have h210 : (2 - 1) * 10 = 10 := by norm_num
    have hlen : (l.mergeSort (fun a b => decide (key a ≤ key b))).length = 15 := by
      rw [List.length_mergeSort, h15]
    have hdlen : ((l.mergeSort (fun a b => decide (key a ≤ key b))).drop 10).length = 5 := by
      rw [List.length_drop, hlen]
    rw [h210]
    constructor
    · rw [List.length_take, hdlen]
      norm_num
    · exact List.take_of_length_le (by rw [hdlen]; norm_num)

/-- C4: the listing endpoints page in key-ascending order with 1-indexed
pages: the returned slice is the page-th limit-sized window of the key-sorted
node list, a page beyond the available pages gives the empty slice rather
than an error, totalPages is the ceiling of totalItems over limit (stated by
its Galois characterisation), and page 2 with page size 10 over 15 items
returns exactly the 5 items ranked 11 to 15. -/
theorem listNodes_pagination (g : Graph) (page limit : Nat)
    (hp : 1 ≤ page) (hl : 1 ≤ limit) :
    ((listAllMovies g page limit).data
        = ((sortedMovies g).drop ((page - 1) * limit)).take limit)
    ∧ (sortedMovies g).Perm g.movies
    ∧ (sortedMovies g).Pairwise (fun a b => a.title ≤ b.title)
    ∧ (listAllMovies g page limit).data.Pairwise (fun a b => a.title ≤ b.title)
    ∧ (listAllMovies g page limit).totalItems = g.movies.length
    ∧ (∀ k, (listAllMovies g page limit).totalPages ≤ k ↔ g.movies.length ≤ k * limit)
    ∧ ((listAllMovies g page limit).totalPages < page →
        (listAllMovies g page limit).data = [])
    ∧ (g.movies.length = 15 → page = 2 → limit = 10 →
        (listAllMovies g page limit).data.length = 5
        ∧ (listAllMovies g page limit).data = (sortedMovies g).drop 10)
    ∧ ((listAllPeople g page limit).data
        = ((sortedPeople g).drop ((page - 1) * limit)).take limit)
    ∧ (sortedPeople g).Perm g.people
    ∧ (sortedPeople g).Pairwise (fun a b => a.name ≤ b.name)
    ∧ (listAllPeople g page limit).data.Pairwise (fun a b => a.name ≤ b.name)
    ∧ (listAllPeople g page limit).totalItems = g.people.length
    ∧ (∀ k, (listAllPeople g page limit).totalPages ≤ k ↔ g.people.length ≤ k * limit)
    ∧ ((listAllPeople g page limit).totalPages < page →
        (listAllPeople g page limit).data = [])
    ∧ (g.people.length = 15 → page = 2 → limit = 10 →
        (listAllPeople g page limit).data.length = 5
        ∧ (listAllPeople g page limit).data = (sortedPeople g).drop 10) := by
  have hm := paginate_facts Movie.title g.movies page limit hp hl
  have hpp := paginate_facts Person.name g.people page limit hp hl
  exact ⟨rfl, hm.1, hm.2.1, hm.2.2.1, rfl, hm.2.2.2.1, hm.2.2.2.2.1, hm.2.2.2.2.2,
    rfl, hpp.1, hpp.2.1, hpp.2.2.1, rfl, hpp.2.2.2.1, hpp.2.2.2.2.1, hpp.2.2.2.2.2⟩

/-- Witness for C4 at a concrete store of fifteen movies: page 2 of size 10
holds exactly 5 items and there are 2 pages. -/
theorem listNodes_pagination_w :
    (listAllMovies gFifteen 2 10).data.length = 5
    ∧ (listAllMovies gFifteen 2 10).totalPages = 2 := by
  have h := listNodes_pagination gFifteen 2 10 (by decide) (by decide)
  constructor
  · exact (h.2.2.2.2.2.2.2.1 (by decide) rfl rfl).1
  · have h₂ : (listAllMovies gFifteen 2 10).totalPages ≤ 2 :=
      (h.2.2.2.2.2.1 2).mpr (by decide)
    have h₁ : ¬(listAllMovies gFifteen 2 10).totalPages ≤ 1 := by
      intro hle
      have := (h.2.2.2.2.2.1 1).mp hle
      revert this
      decide
    omega

/-- A map is the flatMap of singletons. -/
theorem map_eq_flatMapSingle {α β : Type} (l : List α) (f : α → β) :
    l.map f = l.flatMap (fun x => [f x]) := by
  induction l with
  | nil => rfl
  | cons a tl ih => rw [List.map_cons, List.flatMap_cons, ih]; rfl

/-- Under the uniqueness and referential invariants the co-actor row list
collapses to a join of the ACTED_IN edge list with itself: one row per pair
of an edge of the anchor actor and an edge of another person into the same
movie. -/
theorem coActorRows_eq (g : Graph) (A : String)
    (hpn : (g.people.map Person.name).Nodup)
    (hmn : (g.movies.map Movie.title).Nodup)
    (hpe : ∀ e ∈ g.actedIn, personExists g e.person = true)
    (hme : ∀ e ∈ g.actedIn, movieExists g e.movie = true)
    (hA : personExists g A = true) :
    coActorRows g A = (g.actedIn.filter (fun e => e.person == A)).flatMap (fun e₁ =>
      (g.actedIn.filter (fun e₂ => e₂.movie == e₁.movie && !(e₂.person == A))).map
        (fun e₂ => (e₂.person, e₁.movie))) := by
  obtain ⟨pA, hpA, hpAname, hPsing⟩ := personNodes_singleton hpn hA
  rw [coActorRows, hPsing]
  simp only [List.flatMap_cons, List.flatMap_nil, List.append_nil]
  rw [hpAname]
  apply flatMap_congrOn
  intro e₁ he₁
  have he₁m : e₁ ∈ g.actedIn := (List.mem_filter.mp he₁).1
  have he₁p : e₁.person = A := by simpa using (List.mem_filter.mp he₁).2
  obtain ⟨m₁, hm₁, hm₁t, hMsing⟩ := movieNodes_singleton hmn (hme e₁ he₁m)
  rw [hMsing]
  simp only [List.flatMap_cons, List.flatMap_nil, List.append_nil]
  rw [hm₁t]
  rw [flatMap_filter_guard, map_eq_flatMapSingle, flatMap_filter_guard]
  apply flatMap_congrOn
  intro e₂ he₂
  obtain ⟨p₂, hp₂, hp₂name, hP₂sing⟩ := personNodes_singleton hpn (hpe e₂ he₂)
  rw [hP₂sing]
  by_cases hcase : e₂.person = A
  · have hp₂pA : p₂ = pA :=
      keyed_inj Person.name hpn hp₂ hpA (by rw [hp₂name, hpAname, hcase])
    by_cases hmov : e₂.movie = e₁.movie
    · simp [hp₂pA, hcase, hmov]
    · simp [hcase, hmov]
  · have hp₂ne : ¬(p₂ = pA) := fun h => hcase (by rw [← hp₂name, h, hpAname])
    have he₂ne : ¬(e₂ = e₁) := fun h => hcase (by rw [h, he₁p])
    by_cases hmov : e₂.movie = e₁.movie
    · simp [hp₂ne, he₂ne, hcase, hmov, hp₂name]
    · simp [hcase, hmov]

/-- The rows of a co-actor name n are in bijection with the distinct shared
movies of the anchor and n: count(m) counts distinct shared movies. -/
theorem coActorRows_count (g : Graph) (A n : String)
    (hpn : (g.people.map Person.name).Nodup)
    (hmn : (g.movies.map Movie.title).Nodup)
    (hen : (g.actedIn.map (fun e => (e.person, e.movie))).Nodup)
    (hpe : ∀ e ∈ g.actedIn, personExists g e.person = true)
    (hme : ∀ e ∈ g.actedIn, movieExists g e.movie = true)
    (hA : personExists g A = true) (hnA : ¬n = A) :
    ((coActorRows g A).filter (fun r => r.1 == n)).length
      = (sharedMoviesSpec g A n).length := by
  rw [coActorRows_eq g A hpn hmn hpe hme hA]
  rw [filter_flatMapList]
  have hstep : ∀ e₁ ∈ g.actedIn.filter (fun e => e.person == A),
      ((g.actedIn.filter (fun e₂ => e₂.movie == e₁.movie && !(e₂.person == A))).map
        (fun e₂ => (e₂.person, e₁.movie))).filter (fun r => r.1 == n)
      = if g.actedIn.any (fun e₂ => e₂.person == n && e₂.movie == e₁.movie)
          then [(n, e₁.movie)] else [] := by
    intro e₁ _
    have h₁ : ((g.actedIn.filter (fun e₂ => e₂.movie == e₁.movie && !(e₂.person == A))).map
        (fun e₂ => (e₂.person, e₁.movie))).filter (fun r => r.1 == n)
        = ((g.actedIn.filter (fun e₂ => e₂.movie == e₁.movie && !(e₂.person == A))).filter
            (fun e₂ => e₂.person == n)).map (fun e₂ => (e₂.person, e₁.movie)) := by
      rw [List.filter_map]
      rfl
    rw [h₁, List.filter_filter]
    have h₂ : g.actedIn.filter (fun a => a.person == n && (a.movie == e₁.movie && !(a.person == A)))
        = g.actedIn.filter (fun a => a.person == n && a.movie == e₁.movie) := by
      apply List.filter_congr
      intro a _
      rw [Bool.eq_iff_iff]
      by_cases h : a.person = n
      · simp [h, hnA]
      · simp [h]
    rw [h₂]
    exact pinned_filter_map (fun e => (e.person, e.movie)) g.actedIn hen
      (fun a => a.person == n && a.movie == e₁.movie) (n, e₁.movie)
      (fun x _ hx => by
        have hx' : x.person = n ∧ x.movie = e₁.movie := by simpa using hx
        simp [hx'.1, hx'.2])
      (fun e₂ => (e₂.person, e₁.movie)) (n, e₁.movie)
      (fun x _ hx => by
        have hx' : x.person = n ∧ x.movie = e₁.movie := by simpa using hx
        simp [hx'.1])
  rw [flatMap_congrOn hstep]
  have hfin := flatMap_guard_single (List.filter (fun e => e.person == A) g.actedIn)
    (fun e₁ => g.actedIn.any fun e₂ => e₂.person == n && e₂.movie == e₁.movie)
    (fun e₁ => ((n, e₁.movie) : String × String))
    (fun r => g.actedIn.any fun e₂ => e₂.person == n && e₂.movie == r.2)
    (fun x _ => rfl)
  rw [hfin, sharedMoviesSpec]
  rw [← List.countP_eq_length_filter, ← List.countP_eq_length_filter,
    List.countP_map, List.countP_map]
  rfl

/-- A co-actor name appears among the rows exactly when it is a different
person sharing at least one movie with the anchor. -/
theorem coActorRows_names (g : Graph) (A n : String)
    (hpn : (g.people.map Person.name).Nodup)
    (hpe : ∀ e ∈ g.actedIn, personExists g e.person = true)
    (hme : ∀ e ∈ g.actedIn, movieExists g e.movie = true)
    (hA : personExists g A = true) :
    (∃ t, (n, t) ∈ coActorRows g A) ↔ (¬n = A ∧ sharedMoviesSpec g A n ≠ []) := by
  constructor
  · rintro ⟨t, hrow⟩
    rw [coActorRows] at hrow
    rcases List.mem_flatMap.mp hrow with ⟨p₁, hp₁, h₁⟩
    rcases List.mem_flatMap.mp h₁ with ⟨e₁, he₁, h₂⟩
    rcases List.mem_flatMap.mp h₂ with ⟨m, hm, h₃⟩
    rcases List.mem_flatMap.mp h₃ with ⟨e₂, he₂, h₄⟩
    rcases List.mem_map.mp h₄ with ⟨p₂, hp₂, hrow'⟩
    have hp₁mem : p₁ ∈ g.people := (List.mem_filter.mp hp₁).1
    have hp₁a : p₁.name = A := by simpa using (List.mem_filter.mp hp₁).2
    have he₁mem : e₁ ∈ g.actedIn := (List.mem_filter.mp he₁).1
    have he₁p : e₁.person = p₁.name := by simpa using (List.mem_filter.mp he₁).2
    have hmt : m.title = e₁.movie := by simpa using (List.mem_filter.mp hm).2
    have he₂mem : e₂ ∈ g.actedIn := (List.mem_filter.mp he₂).1
    have he₂c : e₂.movie = m.title ∧ ¬(e₂ = e₁) := by
      simpa using (List.mem_filter.mp he₂).2
    have hp₂f := List.mem_filter.mp hp₂
    have hp₂mem : p₂ ∈ g.people := (List.mem_filter.mp hp₂f.1).1
    have hp₂name : p₂.name = e₂.person := by simpa using (List.mem_filter.mp hp₂f.1).2
    have hp₂ne : ¬(p₂ = p₁) := by simpa using hp₂f.2
    have hn : p₂.name = n := congrArg Prod.fst hrow'
    have ht : m.title = t := congrArg Prod.snd hrow'
    constructor
    · intro hnA
      exact hp₂ne (keyed_inj Person.name hpn hp₂mem hp₁mem (by rw [hn, hnA, hp₁a]))
    · intro hspec
      have htin : t ∈ sharedMoviesSpec g A n := by
        rw [sharedMoviesSpec]
        apply List.mem_filter.mpr
        constructor
        · exact List.mem_map.mpr ⟨e₁,
            List.mem_filter.mpr ⟨he₁mem, by simp [he₁p, hp₁a]⟩, by rw [← ht, hmt]⟩
        · exact List.any_eq_true.mpr ⟨e₂, he₂mem,
            by simp [← hn, hp₂name, he₂c.1, ht]⟩
      rw [hspec] at htin
      exact absurd htin (List.not_mem_nil t)
  · rintro ⟨hnA, hspec⟩
    obtain ⟨t, ht⟩ := List.exists_mem_of_ne_nil _ hspec
    rw [sharedMoviesSpec] at ht
    have htf := List.mem_filter.mp ht
    rcases List.mem_map.mp htf.1 with ⟨e₁, he₁, he₁t⟩
    have he₁mem : e₁ ∈ g.actedIn := (List.mem_filter.mp he₁).1
    have he₁p : e₁.person = A := by simpa using (List.mem_filter.mp he₁).2
    rcases List.any_eq_true.mp htf.2 with ⟨e₂, he₂mem, he₂c⟩
    have he₂c' : e₂.person = n ∧ e₂.movie = t := by simpa using he₂c
    obtain ⟨pA, hpA, hpAname, _⟩ := personNodes_singleton hpn hA
    obtain ⟨p₂, hp₂mem, hp₂eq⟩ := List.any_eq_true.mp (hpe e₂ he₂mem)
    have hp₂name : p₂.name = e₂.person := by simpa using hp₂eq
    obtain ⟨m, hmmem, hmeq⟩ := List.any_eq_true.mp (hme e₁ he₁mem)
    have hmt : m.title = e₁.movie := by simpa using hmeq
    have he₂e₁ : ¬(e₂ = e₁) := fun h => hnA (by rw [← he₂c'.1, h, he₁p])
    have hp₂nepA : ¬(p₂ = pA) := fun h =>
      hnA (by rw [← he₂c'.1, ← hp₂name, h, hpAname])
    refine ⟨t, ?_⟩
    rw [coActorRows]
    apply List.mem_flatMap.mpr
    refine ⟨pA, List.mem_filter.mpr ⟨hpA, by simp [hpAname]⟩, ?_⟩
    apply List.mem_flatMap.mpr
    refine ⟨e₁, List.mem_filter.mpr ⟨he₁mem, by simp [he₁p, hpAname]⟩, ?_⟩
    apply List.mem_flatMap.mpr
    refine ⟨m, List.mem_filter.mpr ⟨hmmem, by simp [hmt]⟩, ?_⟩
    apply List.mem_flatMap.mpr
    refine ⟨e₂, List.mem_filter.mpr ⟨he₂mem, by simp [he₂c'.2, hmt, he₁t, he₂e₁]⟩, ?_⟩
    apply List.mem_map.mpr
    refine ⟨p₂, List.mem_filter.mpr ⟨List.mem_filter.mpr ⟨hp₂mem, by simp [hp₂name]⟩,
      by simp [hp₂nepA]⟩, ?_⟩
    show (p₂.name, m.title) = (n, t)
    rw [hp₂name, he₂c'.1, hmt, he₁t]

/-- The comparator behind ORDER BY count DESC, name ASC, as a proposition. -/
theorem coActorLE_iff (a b : String × Nat) :
    coActorLE a b = true ↔ (b.2 < a.2 ∨ (a.2 = b.2 ∧ a.1 ≤ b.1)) := by
  simp [coActorLE]

/-- Transitivity of the co-actor ordering. -/
theorem coActorLE_trans : ∀ a b c : String × Nat,
    coActorLE a b = true → coActorLE b c = true → coActorLE a c = true := by
  intro a b c hab hbc
  rw [coActorLE_iff] at *
  rcases hab with h | ⟨h₁, h₂⟩ <;> rcases hbc with h' | ⟨h₁', h₂'⟩
  · left; omega
  · left; omega
  · left; omega
  · right; exact ⟨h₁.trans h₁', le_trans h₂ h₂'⟩

/-- Totality of the co-actor ordering. -/
theorem coActorLE_total : ∀ a b : String × Nat,
    (coActorLE a b || coActorLE b a) = true := by
  intro a b
  rw [Bool.or_eq_true, coActorLE_iff, coActorLE_iff]
  rcases lt_trichotomy a.2 b.2 with h | h | h
  · right; left; exact h
  · rcases le_total a.1 b.1 with hle | hle
    · left; right; exact ⟨h, hle⟩
    · right; right; exact ⟨h.symm, hle⟩
  · left; left; exact h

/-- The names of the aggregated counts are the distinct row names. -/
theorem aggregateCounts_fst (rows : List (String × String)) :
    (aggregateCounts rows).map Prod.fst = (rows.map Prod.fst).dedup := by
  rw [aggregateCounts, List.map_map]
  rw [show (Prod.fst ∘ fun n =>
    (n, (rows.filter (fun r => r.1 == n)).length)) = id from rfl, List.map_id]

/-- Inversion of membership in the aggregated counts. -/
theorem aggregateCounts_mem {rows : List (String × String)} {r : String × Nat}
    (h : r ∈ aggregateCounts rows) :
    r.1 ∈ (rows.map Prod.fst).dedup
    ∧ r.2 = (rows.filter (fun x => x.1 == r.1)).length := by
  rw [aggregateCounts] at h
  rcases List.mem_map.mp h with ⟨nm, hnm, hr⟩
  subst hr
  exact ⟨hnm, rfl⟩

/-- Introduction of membership in the aggregated counts. -/
theorem aggregateCounts_mem_of {rows : List (String × String)} {nm : String}
    (h : nm ∈ (rows.map Prod.fst).dedup) :
    (nm, (rows.filter (fun x => x.1 == nm)).length) ∈ aggregateCounts rows := by
  rw [aggregateCounts]
  exact List.mem_map.mpr ⟨nm, h, rfl⟩

/-- The shared-movie list of the specification has no duplicates under the
edge uniqueness invariant. -/
theorem sharedMoviesSpec_nodup (g : Graph) (A n : String)
    (hen : (g.actedIn.map (fun e => (e.person, e.movie))).Nodup) :
    (sharedMoviesSpec g A n).Nodup := by
  rw [sharedMoviesSpec]
  apply List.Nodup.filter
  have hsub : ((g.actedIn.filter (fun e => e.person == A)).map
      (fun e => (e.person, e.movie))).Nodup :=
    List.Nodup.sublist
      ((List.filter_sublist g.actedIn).map (fun e => (e.person, e.movie))) hen
  have hmm : (g.actedIn.filter (fun e => e.person == A)).map (fun e => e.movie)
      = ((g.actedIn.filter (fun e => e.person == A)).map
          (fun e => (e.person, e.movie))).map Prod.snd := by
    rw [List.map_map]
    rfl
  rw [hmm]
  apply List.Nodup.map_on ?_ hsub
  intro x hx y hy hxy
  rcases List.mem_map.mp hx with ⟨ex, hex, hxeq⟩
  rcases List.mem_map.mp hy with ⟨ey, hey, hyeq⟩
  have hexp : ex.person = A := by simpa using (List.mem_filter.mp hex).2
  have heyp : ey.person = A := by simpa using (List.mem_filter.mp hey).2
  have hx1 : x.1 = A := by rw [← hxeq, ← hexp]
  have hy1 : y.1 = A := by rw [← hyeq, ← heyp]
  exact Prod.ext (hx1.trans hy1.symm) hxy

/-- Grounding of the shared-movie specification in the raw edge list. -/
theorem sharedMoviesSpec_mem (g : Graph) (A n t : String) :
    t ∈ sharedMoviesSpec g A n ↔
      (∃ e ∈ g.actedIn, e.person = A ∧ e.movie = t)
      ∧ (∃ e ∈ g.actedIn, e.person = n ∧ e.movie = t) := by
  rw [sharedMoviesSpec]
  simp only [List.mem_filter, List.mem_map, List.any_eq_true, Bool.and_eq_true,
    beq_iff_eq]
  constructor
  · rintro ⟨⟨e₁, ⟨he₁, hp₁⟩, ht₁⟩, e₂, he₂, hp₂, ht₂⟩
    exact ⟨⟨e₁, he₁, hp₁, ht₁⟩, ⟨e₂, he₂, hp₂, ht₂⟩⟩
  · rintro ⟨⟨e₁, he₁, hp₁, ht₁⟩, e₂, he₂, hp₂, ht₂⟩
    exact ⟨⟨e₁, ⟨he₁, hp₁⟩, ht₁⟩, e₂, he₂, hp₂, ht₂⟩

/-- C3: getCoActors lists each distinct other person sharing at least one
movie with the anchor exactly once, never the anchor itself; every count is
the true number of distinct shared movies (the shared-movie list is grounded
in the raw edge data and duplicate free); and the output is ordered by count
descending, then name ascending. -/
theorem getCoActors_correct (g : Graph) (A : String)
    (hpn : (g.people.map Person.name).Nodup)
    (hmn : (g.movies.map Movie.title).Nodup)
    (hen : (g.actedIn.map (fun e => (e.person, e.movie))).Nodup)
    (hpe : ∀ e ∈ g.actedIn, personExists g e.person = true)
    (hme : ∀ e ∈ g.actedIn, movieExists g e.movie = true)
    (hA : personExists g A = true) :
    ((getCoActors g A).map Prod.fst).Nodup
    ∧ (∀ r ∈ getCoActors g A, ¬r.1 = A)
    ∧ (∀ n, (∃ c, (n, c) ∈ getCoActors g A) ↔ (¬n = A ∧ sharedMoviesSpec g A n ≠ []))
    ∧ (∀ r ∈ getCoActors g A, r.2 = (sharedMoviesSpec g A r.1).length
        ∧ (sharedMoviesSpec g A r.1).Nodup ∧ 1 ≤ r.2)
    ∧ (∀ n t, t ∈ sharedMoviesSpec g A n ↔
        ((∃ e ∈ g.actedIn, e.person = A ∧ e.movie = t)
          ∧ (∃ e ∈ g.actedIn, e.person = n ∧ e.movie = t)))
    ∧ (getCoActors g A).Pairwise (fun x y => y.2 < x.2 ∨ (x.2 = y.2 ∧ x.1 ≤ y.1)) := by
  have hmemAgg : ∀ r : String × Nat,
      r ∈ getCoActors g A ↔ r ∈ aggregateCounts (coActorRows g A) := by
    intro r
    rw [getCoActors, List.mem_mergeSort]
  have h₁ : ((getCoActors g A).map Prod.fst).Nodup := by
    have hperm : (getCoActors g A).Perm (aggregateCounts (coActorRows g A)) :=
      List.mergeSort_perm _ _
    rw [(hperm.map Prod.fst).nodup_iff, aggregateCounts_fst]
    exact List.nodup_dedup _
  have hrowOf : ∀ r : String × Nat, r ∈ getCoActors g A →
      ∃ t, (r.1, t) ∈ coActorRows g A := by
    intro r hr
    have hagg := (hmemAgg r).mp hr
    have h := (aggregateCounts_mem hagg).1
    have h' : r.1 ∈ (coActorRows g A).map Prod.fst := List.mem_dedup.mp h
    rcases List.mem_map.mp h' with ⟨row, hrow, hfst⟩
    refine ⟨row.2, ?_⟩
    rw [← hfst, Prod.mk.eta]
    exact hrow
  have hnoSelf : ∀ r ∈ getCoActors g A, ¬r.1 = A := by
    intro r hr
    exact ((coActorRows_names g A r.1 hpn hpe hme hA).mp (hrowOf r hr)).1
  refine ⟨h₁, hnoSelf, ?_, ?_, fun n t => sharedMoviesSpec_mem g A n t, ?_⟩
  · intro n
    constructor
    · rintro ⟨c, hc⟩
      exact (coActorRows_names g A n hpn hpe hme hA).mp (hrowOf (n, c) hc)
    · rintro h
      obtain ⟨t, hrow⟩ := (coActorRows_names g A n hpn hpe hme hA).mpr h
      have hn : n ∈ ((coActorRows g A).map Prod.fst).dedup :=
        List.mem_dedup.mpr (List.mem_map.mpr ⟨(n, t), hrow, rfl⟩)
      exact ⟨_, (hmemAgg _).mpr (aggregateCounts_mem_of hn)⟩
  · intro r hr
    have hagg := (hmemAgg r).mp hr
    have hcnt := (aggregateCounts_mem hagg).2
    have hnA := hnoSelf r hr
    have hcount := coActorRows_count g A r.1 hpn hmn hen hpe hme hA hnA
    refine ⟨by rw [hcnt]; exact hcount, sharedMoviesSpec_nodup g A r.1 hen, ?_⟩
    have hne := ((coActorRows_names g A r.1 hpn hpe hme hA).mp (hrowOf r hr)).2
    rw [hcnt, hcount]
    have := List.length_pos.mpr hne
    omega
  · have hs := List.sorted_mergeSort coActorLE_trans coActorLE_total
      (aggregateCounts (coActorRows g A))
    rw [getCoActors]
    exact hs.imp (fun h => (coActorLE_iff _ _).mp h)

/-- Witness for C3 at a concrete store: Ann has co-actors Bob and Cara, each
with one shared movie, and never herself. -/
theorem getCoActors_correct_w :
    (∀ r ∈ getCoActors gCoActors "Ann", ¬r.1 = "Ann")
    ∧ ((getCoActors gCoActors "Ann").map Prod.fst).Nodup
    ∧ (∀ r ∈ getCoActors gCoActors "Ann",
        r.2 = (sharedMoviesSpec gCoActors "Ann" r.1).length) := by
  have h := getCoActors_correct gCoActors "Ann" (by decide) (by decide) (by decide)
    (by decide) (by decide) (by decide)
  exact ⟨h.2.1, h.1, fun r hr => (h.2.2.2.1 r hr).1⟩

/-- Under the invariants the shared-genre recommendation rows collapse to a
join of the HAS_GENRE edge list with itself, anchored at the unique movie
node of the requested title. -/
theorem sharedGenreRows_eq (g : Graph) (M : String)
    (hmn : (g.movies.map Movie.title).Nodup)
    (hgn : g.genres.Nodup)
    (hgg : ∀ e ∈ g.hasGenre, genreExists g e.genre = true)
    (hM : movieExists g M = true) :
    ∃ m₁ ∈ g.movies, m₁.title = M ∧
      sharedGenreRows g M = (g.hasGenre.filter (fun e => e.movie == M)).flatMap (fun e₁ =>
        (g.hasGenre.filter (fun e₂ => e₂.genre == e₁.genre && !(e₂ == e₁))).flatMap (fun e₂ =>
          ((movieNodes g e₂.movie).filter (fun m₂ => !(m₂ == m₁))).map (fun m₂ =>
            ⟨m₂, e₁.genre⟩))) := by
  obtain ⟨m₁, hm₁, hm₁t, hMsing⟩ := movieNodes_singleton hmn hM
  refine ⟨m₁, hm₁, hm₁t, ?_⟩
  rw [sharedGenreRows, hMsing]
  simp only [List.flatMap_cons, List.flatMap_nil, List.append_nil]
  rw [hm₁t]
  apply flatMap_congrOn
  intro e₁ he₁
  have he₁m : e₁ ∈ g.hasGenre := (List.mem_filter.mp he₁).1
  rw [genreNodes_singleton hgn (hgg e₁ he₁m)]
  simp only [List.flatMap_cons, List.flatMap_nil, List.append_nil]

/-- The genre names collected for one recommended movie are exactly the
genres that movie shares with the anchor movie, in the anchor edge order. -/
theorem sharedGenreRows_collected (g : Graph) (M : String)
    (hmn : (g.movies.map Movie.title).Nodup)
    (hgn : g.genres.Nodup)
    (hgen : (g.hasGenre.map (fun e => (e.movie, e.genre))).Nodup)
    (hgm : ∀ e ∈ g.hasGenre, movieExists g e.movie = true)
    (hgg : ∀ e ∈ g.hasGenre, genreExists g e.genre = true)
    (hM : movieExists g M = true)
    (m₂ : Movie) (hm₂ : m₂ ∈ g.movies) (hm₂M : ¬m₂.title = M) :
    ((sharedGenreRows g M).filter (fun r => r.movie == m₂)).map (fun r => r.genre)
      = sharedGenresSpec g M m₂.title := by
  obtain ⟨m₁, hm₁, hm₁t, hrows⟩ := sharedGenreRows_eq g M hmn hgn hgg hM
  have hm₂m₁ : ¬m₂ = m₁ := fun h => hm₂M (by rw [h, hm₁t])
  rw [hrows, filter_flatMapList, map_flatMapList]
  have hstep : ∀ e₁ ∈ g.hasGenre.filter (fun e => e.movie == M),
      (((g.hasGenre.filter (fun e₂ => e₂.genre == e₁.genre && !(e₂ == e₁))).flatMap (fun e₂ =>
          ((movieNodes g e₂.movie).filter (fun m₂x => !(m₂x == m₁))).map (fun m₂x =>
            (⟨m₂x, e₁.genre⟩ : RecRow)))).filter (fun r => r.movie == m₂)).map
        (fun r => r.genre)
      = if g.hasGenre.any (fun e₂ => e₂.movie == m₂.title && e₂.genre == e₁.genre)
          then [e₁.genre] else [] := by
    intro e₁ he₁
    have he₁m : e₁ ∈ g.hasGenre := (List.mem_filter.mp he₁).1
    have he₁M : e₁.movie = M := by simpa using (List.mem_filter.mp he₁).2
    rw [filter_flatMapList, map_flatMapList]
    have hinner : ∀ e₂ ∈ g.hasGenre.filter (fun e₂ => e₂.genre == e₁.genre && !(e₂ == e₁)),
        ((((movieNodes g e₂.movie).filter (fun m₂x => !(m₂x == m₁))).map (fun m₂x =>
            (⟨m₂x, e₁.genre⟩ : RecRow))).filter (fun r => r.movie == m₂)).map
          (fun r => r.genre)
        = if e₂.movie == m₂.title then [e₁.genre] else [] := by
      intro e₂ he₂
      have he₂m : e₂ ∈ g.hasGenre := (List.mem_filter.mp he₂).1
      obtain ⟨m₂e, hm₂e, hm₂et, hm₂sing⟩ := movieNodes_singleton hmn (hgm e₂ he₂m)
      rw [hm₂sing]
      by_cases hcase : e₂.movie = m₂.title
      · have hm₂em₂ : m₂e = m₂ := keyed_inj Movie.title hmn hm₂e hm₂ (by rw [hm₂et, hcase])
        simp [hm₂em₂, hm₂m₁, hcase]
      · have hm₂em₂ : ¬(m₂e = m₂) := fun h => hcase (by rw [← hm₂et, h])
        by_cases hm₁case : m₂e = m₁
        · simp [hm₁case, hcase]
        · simp [hm₁case, hm₂em₂, hcase]
    rw [flatMap_congrOn hinner]
    rw [flatMap_filter_guard]
    have hmerge : ∀ e₂ ∈ g.hasGenre,
        (if (e₂.genre == e₁.genre && !(e₂ == e₁)) = true then
          (if e₂.movie == m₂.title then [e₁.genre] else []) else [])
        = if (e₂.movie == m₂.title && e₂.genre == e₁.genre) = true
            then [e₁.genre] else [] := by
      intro e₂ _
      by_cases hg : e₂.genre = e₁.genre
      · by_cases hm : e₂.movie = m₂.title
        · have hne : ¬(e₂ = e₁) := by
            intro h
            rw [h] at hm
            rw [he₁M] at hm
            exact hm₂M hm.symm
          simp [hg, hm, hne]
        · simp [hg, hm]
      · simp [hg]
    rw [flatMap_congrOn hmerge]
    have hconv : g.hasGenre.flatMap (fun e₂ =>
        if (e₂.movie == m₂.title && e₂.genre == e₁.genre) = true then [e₁.genre] else [])
        = (g.hasGenre.filter (fun e₂ =>
            e₂.movie == m₂.title && e₂.genre == e₁.genre)).map (fun _ => e₁.genre) := by
      rw [map_eq_flatMapSingle, flatMap_filter_guard]
    rw [hconv]
    exact pinned_filter_map (fun e => (e.movie, e.genre)) g.hasGenre hgen
      (fun e₂ => e₂.movie == m₂.title && e₂.genre == e₁.genre) (m₂.title, e₁.genre)
      (fun x _ hx => by
        have hx' : x.movie = m₂.title ∧ x.genre = e₁.genre := by simpa using hx
        simp [hx'.1, hx'.2])
      (fun _ => e₁.genre) e₁.genre (fun x _ _ => rfl)
  rw [flatMap_congrOn hstep]
  have hfin := flatMap_guard_single (g.hasGenre.filter (fun e => e.movie == M))
    (fun e₁ => g.hasGenre.any fun e₂ => e₂.movie == m₂.title && e₂.genre == e₁.genre)
    (fun e₁ => e₁.genre)
    (fun gn => g.hasGenre.any fun e₂ => e₂.movie == m₂.title && e₂.genre == gn)
    (fun x _ => rfl)
  rw [hfin, sharedGenresSpec]

/-- The shared-genre list of the specification has no duplicates under the
edge uniqueness invariant. -/
theorem sharedGenresSpec_nodup (g : Graph) (M t₂ : String)
    (hgen : (g.hasGenre.map (fun e => (e.movie, e.genre))).Nodup) :
    (sharedGenresSpec g M t₂).Nodup := by
  rw [sharedGenresSpec]
  apply List.Nodup.filter
  have hsub : ((g.hasGenre.filter (fun e => e.movie == M)).map
      (fun e => (e.movie, e.genre))).Nodup :=
    List.Nodup.sublist
      ((List.filter_sublist g.hasGenre).map (fun e => (e.movie, e.genre))) hgen
  have hmm : (g.hasGenre.filter (fun e => e.movie == M)).map (fun e => e.genre)
      = ((g.hasGenre.filter (fun e => e.movie == M)).map
          (fun e => (e.movie, e.genre))).map Prod.snd := by
    rw [List.map_map]
    rfl
  rw [hmm]
  apply List.Nodup.map_on ?_ hsub
  intro x hx y hy hxy
  rcases List.mem_map.mp hx with ⟨ex, hex, hxeq⟩
  rcases List.mem_map.mp hy with ⟨ey, hey, hyeq⟩
  have hexp : ex.movie = M := by simpa using (List.mem_filter.mp hex).2
  have heyp : ey.movie = M := by simpa using (List.mem_filter.mp hey).2
  have hx1 : x.1 = M := by rw [← hxeq, ← hexp]
  have hy1 : y.1 = M := by rw [← hyeq, ← heyp]
  exact Prod.ext (hx1.trans hy1.symm) hxy

/-- Grounding of the shared-genre specification in the raw edge list. -/
theorem sharedGenresSpec_mem (g : Graph) (M t₂ gn : String) :
    gn ∈ sharedGenresSpec g M t₂ ↔
      (∃ e ∈ g.hasGenre, e.movie = M ∧ e.genre = gn)
      ∧ (∃ e ∈ g.hasGenre, e.movie = t₂ ∧ e.genre = gn) := by
  rw [sharedGenresSpec]
  simp only [List.mem_filter, List.mem_map, List.any_eq_true, Bool.and_eq_true,
    beq_iff_eq]
  constructor
  · rintro ⟨⟨e₁, ⟨he₁, hp₁⟩, ht₁⟩, e₂, he₂, hp₂, ht₂⟩
    exact ⟨⟨e₁, he₁, hp₁, ht₁⟩, ⟨e₂, he₂, hp₂, ht₂⟩⟩
  · rintro ⟨⟨e₁, he₁, hp₁, ht₁⟩, e₂, he₂, hp₂, ht₂⟩
    exact ⟨⟨e₁, ⟨he₁, hp₁⟩, ht₁⟩, e₂, he₂, hp₂, ht₂⟩

/-- The comparator behind ORDER BY commonGenreCount DESC, title ASC, as a
proposition. -/
theorem recLE_iff (a b : RecGroup) :
    recLE a b = true ↔ (b.commonCount < a.commonCount
      ∨ (a.commonCount = b.commonCount ∧ a.movie.title ≤ b.movie.title)) := by
  simp [recLE]

/-- Transitivity of the recommendation ordering. -/
theorem recLE_trans : ∀ a b c : RecGroup,
    recLE a b = true → recLE b c = true → recLE a c = true := by
  intro a b c hab hbc
  rw [recLE_iff] at *
  rcases hab with h | ⟨h₁, h₂⟩ <;> rcases hbc with h' | ⟨h₁', h₂'⟩
  · left; omega
  · left; omega
  · left; omega
  · right; exact ⟨h₁.trans h₁', le_trans h₂ h₂'⟩

/-- Totality of the recommendation ordering. -/
theorem recLE_total : ∀ a b : RecGroup, (recLE a b || recLE b a) = true := by
  intro a b
  rw [Bool.or_eq_true, recLE_iff, recLE_iff]
  rcases lt_trichotomy a.commonCount b.commonCount with h | h | h
  · right; left; exact h
  · rcases le_total a.movie.title b.movie.title with hle | hle
    · left; right; exact ⟨h, hle⟩
    · right; right; exact ⟨h.symm, hle⟩
  · left; left; exact h

/-- The movies of the recommendation groups are the distinct row movies. -/
theorem groupRecRows_fst (rows : List RecRow) :
    (groupRecRows rows).map RecGroup.movie = (rows.map (fun r => r.movie)).dedup := by
  rw [groupRecRows, List.map_map]
  rw [show (RecGroup.movie ∘ fun m =>
    (⟨m, (rows.filter (fun r => r.movie == m)).map (fun r => r.genre),
      ((rows.filter (fun r => r.movie == m)).map (fun r => r.genre)).dedup.length⟩ : RecGroup))
    = id from rfl, List.map_id]

/-- Inversion of membership in the recommendation groups. -/
theorem groupRecRows_mem {rows : List RecRow} {gr : RecGroup}
    (h : gr ∈ groupRecRows rows) :
    gr.movie ∈ (rows.map (fun r => r.movie)).dedup
    ∧ gr.sharedGenres = (rows.filter (fun r => r.movie == gr.movie)).map (fun r => r.genre)
    ∧ gr.commonCount = gr.sharedGenres.dedup.length := by
  rw [groupRecRows] at h
  rcases List.mem_map.mp h with ⟨m, hm, hgr⟩
  subst hgr
  exact ⟨hm, rfl, rfl⟩

/-- Introduction of membership in the recommendation groups. -/
theorem groupRecRows_mem_of {rows : List RecRow} {m : Movie}
    (h : m ∈ (rows.map (fun r => r.movie)).dedup) :
    (⟨m, (rows.filter (fun r => r.movie == m)).map (fun r => r.genre),
      ((rows.filter (fun r => r.movie == m)).map (fun r => r.genre)).dedup.length⟩ : RecGroup)
      ∈ groupRecRows rows := by
  rw [groupRecRows]
  exact List.mem_map.mpr ⟨m, h, rfl⟩

/-- Every recommendation row names a stored movie other than the anchor and a
genuinely shared genre. -/
theorem sharedGenreRows_sound (g : Graph) (M : String)
    (hmn : (g.movies.map Movie.title).Nodup)
    (hgn : g.genres.Nodup)
    (hgg : ∀ e ∈ g.hasGenre, genreExists g e.genre = true)
    (hM : movieExists g M = true) :
    ∀ r ∈ sharedGenreRows g M, r.movie ∈ g.movies ∧ ¬r.movie.title = M
      ∧ r.genre ∈ sharedGenresSpec g M r.movie.title := by
  obtain ⟨m₁, hm₁, hm₁t, hrows⟩ := sharedGenreRows_eq g M hmn hgn hgg hM
  intro r hr
  rw [hrows] at hr
  rcases List.mem_flatMap.mp hr with ⟨e₁, he₁, h₁⟩
  rcases List.mem_flatMap.mp h₁ with ⟨e₂, he₂, h₂⟩
  rcases List.mem_map.mp h₂ with ⟨m₂x, hm₂x, hre⟩
  have he₁m : e₁ ∈ g.hasGenre := (List.mem_filter.mp he₁).1
  have he₁M : e₁.movie = M := by simpa using (List.mem_filter.mp he₁).2
  have he₂m : e₂ ∈ g.hasGenre := (List.mem_filter.mp he₂).1
  have he₂c : e₂.genre = e₁.genre ∧ ¬(e₂ = e₁) := by
    simpa using (List.mem_filter.mp he₂).2
  have hm₂f := List.mem_filter.mp hm₂x
  have hm₂mem : m₂x ∈ g.movies := (List.mem_filter.mp hm₂f.1).1
  have hm₂t : m₂x.title = e₂.movie := by simpa using (List.mem_filter.mp hm₂f.1).2
  have hm₂ne : ¬(m₂x = m₁) := by simpa using hm₂f.2
  have hrm : r.movie = m₂x := by rw [← hre]
  have hrg : r.genre = e₁.genre := by rw [← hre]
  refine ⟨by rw [hrm]; exact hm₂mem, ?_, ?_⟩
  · intro hMt
    exact hm₂ne (keyed_inj Movie.title hmn hm₂mem hm₁ (by rw [← hrm, hMt, hm₁t]))
  · rw [hrm, hrg]
    apply (sharedGenresSpec_mem g M m₂x.title e₁.genre).mpr
    exact ⟨⟨e₁, he₁m, he₁M, rfl⟩, ⟨e₂, he₂m, by rw [hm₂t], he₂c.1⟩⟩

/-- Any stored movie other than the anchor that shares a genre with it
contributes a row. -/
theorem sharedGenreRows_complete (g : Graph) (M : String)
    (hmn : (g.movies.map Movie.title).Nodup)
    (hgn : g.genres.Nodup)
    (hgg : ∀ e ∈ g.hasGenre, genreExists g e.genre = true)
    (hM : movieExists g M = true)
    (m₂ : Movie) (hm₂ : m₂ ∈ g.movies) (hm₂M : ¬m₂.title = M)
    (hspec : sharedGenresSpec g M m₂.title ≠ []) :
    ∃ gn, (⟨m₂, gn⟩ : RecRow) ∈ sharedGenreRows g M := by
  obtain ⟨m₁, hm₁, hm₁t, hrows⟩ := sharedGenreRows_eq g M hmn hgn hgg hM
  obtain ⟨gn, hgnmem⟩ := List.exists_mem_of_ne_nil _ hspec
  obtain ⟨⟨e₁, he₁m, he₁M, he₁g⟩, e₂, he₂m, he₂M, he₂g⟩ :=
    (sharedGenresSpec_mem g M m₂.title gn).mp hgnmem
  have he₂e₁ : ¬(e₂ = e₁) := fun h => hm₂M (by rw [← he₂M, h, he₁M])
  have hm₂m₁ : ¬(m₂ = m₁) := fun h => hm₂M (by rw [h, hm₁t])
  refine ⟨gn, ?_⟩
  rw [hrows]
  apply List.mem_flatMap.mpr
  refine ⟨e₁, List.mem_filter.mpr ⟨he₁m, by simp [he₁M]⟩, ?_⟩
  apply List.mem_flatMap.mpr
  refine ⟨e₂, List.mem_filter.mpr ⟨he₂m, by simp [he₂g, he₁g, he₂e₁]⟩, ?_⟩
  apply List.mem_map.mpr
  refine ⟨m₂, List.mem_filter.mpr ⟨List.mem_filter.mpr ⟨hm₂, by simp [he₂M]⟩,
    by simp [hm₂m₁]⟩, ?_⟩
  show (⟨m₂, e₁.genre⟩ : RecRow) = ⟨m₂, gn⟩
  rw [he₁g]

/-- C7: recommendMoviesBySharedGenres returns only movies other than the
anchor that share at least one genre with it, ranked by distinct shared-genre
count descending then title ascending, capped at 10 entries (the cap is the
prefix of the full ranked list), and each entry carries the shared genre
names, joined, as its reason; the shared-genre list is grounded in the raw
edge data and duplicate free. -/
theorem recommendBySharedGenres_correct (g : Graph) (M : String)
    (hmn : (g.movies.map Movie.title).Nodup)
    (hgn : g.genres.Nodup)
    (hgen : (g.hasGenre.map (fun e => (e.movie, e.genre))).Nodup)
    (hgm : ∀ e ∈ g.hasGenre, movieExists g e.movie = true)
    (hgg : ∀ e ∈ g.hasGenre, genreExists g e.genre = true)
    (hM : movieExists g M = true) :
    (recommendMoviesBySharedGenres g M).length ≤ 10
    ∧ (∃ full : List RecommendedMovie,
        recommendMoviesBySharedGenres g M = full.take 10
        ∧ (full.map RecommendedMovie.title).Nodup
        ∧ (∀ e ∈ full, ¬e.title = M ∧ sharedGenresSpec g M e.title ≠ []
            ∧ e.reason = "Shared Genres: "
              ++ String.intercalate ", " (sharedGenresSpec g M e.title))
        ∧ (∀ t, (∃ e ∈ full, e.title = t) ↔
            (∃ m₂ ∈ g.movies, m₂.title = t ∧ ¬t = M ∧ sharedGenresSpec g M t ≠ []))
        ∧ full.Pairwise (fun x y =>
            (sharedGenresSpec g M y.title).length < (sharedGenresSpec g M x.title).length
            ∨ ((sharedGenresSpec g M x.title).length = (sharedGenresSpec g M y.title).length
              ∧ x.title ≤ y.title)))
    ∧ (∀ e ∈ recommendMoviesBySharedGenres g M, ¬e.title = M
        ∧ sharedGenresSpec g M e.title ≠ []
        ∧ e.reason = "Shared Genres: "
          ++ String.intercalate ", " (sharedGenresSpec g M e.title))
    ∧ (recommendMoviesBySharedGenres g M).Pairwise (fun x y =>
        (sharedGenresSpec g M y.title).length < (sharedGenresSpec g M x.title).length
        ∨ ((sharedGenresSpec g M x.title).length = (sharedGenresSpec g M y.title).length
          ∧ x.title ≤ y.title))
    ∧ (∀ t₂ gn, gn ∈ sharedGenresSpec g M t₂ ↔
        ((∃ e ∈ g.hasGenre, e.movie = M ∧ e.genre = gn)
          ∧ (∃ e ∈ g.hasGenre, e.movie = t₂ ∧ e.genre = gn)))
    ∧ (∀ t₂, (sharedGenresSpec g M t₂).Nodup) := by
  have hgrFacts : ∀ gr ∈ groupRecRows (sharedGenreRows g M),
      gr.movie ∈ g.movies ∧ ¬gr.movie.title = M
      ∧ gr.sharedGenres = sharedGenresSpec g M gr.movie.title
      ∧ gr.commonCount = (sharedGenresSpec g M gr.movie.title).length
      ∧ sharedGenresSpec g M gr.movie.title ≠ [] := by
    intro gr hgr
    obtain ⟨hmem, hshared, hcount⟩ := groupRecRows_mem hgr
    have hmem' : gr.movie ∈ (sharedGenreRows g M).map (fun r => r.movie) :=
      List.mem_dedup.mp hmem
    rcases List.mem_map.mp hmem' with ⟨row, hrow, hrowm⟩
    obtain ⟨hrmem, hrM, hrspec⟩ := sharedGenreRows_sound g M hmn hgn hgg hM row hrow
    have h₁ : gr.movie ∈ g.movies := hrowm ▸ hrmem
    have h₂ : ¬gr.movie.title = M := hrowm ▸ hrM
    have h₃ : gr.sharedGenres = sharedGenresSpec g M gr.movie.title := by
      rw [hshared]
      exact sharedGenreRows_collected g M hmn hgn hgen hgm hgg hM gr.movie h₁ h₂
    have hnd := sharedGenresSpec_nodup g M gr.movie.title hgen
    have h₄ : gr.commonCount = (sharedGenresSpec g M gr.movie.title).length := by
      rw [hcount, h₃, List.dedup_eq_self.mpr hnd]
    have h₅ : sharedGenresSpec g M gr.movie.title ≠ [] := by
      intro hnil
      rw [hrowm, hnil] at hrspec
      exact absurd hrspec (List.not_mem_nil _)
    exact ⟨h₁, h₂, h₃, h₄, h₅⟩
  have hout : recommendMoviesBySharedGenres g M
      = ((((groupRecRows (sharedGenreRows g M)).mergeSort recLE).map (fun r =>
          (⟨r.movie.title, r.movie.released, r.movie.tagline,
            "Shared Genres: " ++ String.intercalate ", " r.sharedGenres⟩
            : RecommendedMovie)))).take 10 := by
    rw [recommendMoviesBySharedGenres, List.map_take]
  have hfullmem : ∀ e ∈ (((groupRecRows (sharedGenreRows g M)).mergeSort recLE).map (fun r =>
      (⟨r.movie.title, r.movie.released, r.movie.tagline,
        "Shared Genres: " ++ String.intercalate ", " r.sharedGenres⟩ : RecommendedMovie))),
      ¬e.title = M ∧ sharedGenresSpec g M e.title ≠ []
      ∧ e.reason = "Shared Genres: "
        ++ String.intercalate ", " (sharedGenresSpec g M e.title) := by
    intro e he
    rcases List.mem_map.mp he with ⟨gr, hgr, hegr⟩
    obtain ⟨_, h₂, h₃, _, h₅⟩ := hgrFacts gr (List.mem_mergeSort.mp hgr)
    have htitle : e.title = gr.movie.title := by rw [← hegr]
    refine ⟨by rw [htitle]; exact h₂, by rw [htitle]; exact h₅, ?_⟩
    have hreason : e.reason = "Shared Genres: "
        ++ String.intercalate ", " gr.sharedGenres := by rw [← hegr]
    rw [hreason, htitle, h₃]
  have hfullnodup : ((((groupRecRows (sharedGenreRows g M)).mergeSort recLE).map (fun r =>
      (⟨r.movie.title, r.movie.released, r.movie.tagline,
        "Shared Genres: " ++ String.intercalate ", " r.sharedGenres⟩
        : RecommendedMovie))).map RecommendedMovie.title).Nodup := by
    rw [List.map_map]
    have heq : (RecommendedMovie.title ∘ fun r : RecGroup =>
        (⟨r.movie.title, r.movie.released, r.movie.tagline,
          "Shared Genres: " ++ String.intercalate ", " r.sharedGenres⟩
          : RecommendedMovie)) = fun r : RecGroup => r.movie.title := rfl
    rw [heq]
    have hperm : ((groupRecRows (sharedGenreRows g M)).mergeSort recLE).map
        (fun r : RecGroup => r.movie.title)
        |>.Perm ((groupRecRows (sharedGenreRows g M)).map (fun r : RecGroup => r.movie.title)) :=
      (List.mergeSort_perm _ _).map _
    rw [hperm.nodup_iff]
    have heq₂ : (groupRecRows (sharedGenreRows g M)).map (fun r : RecGroup => r.movie.title)
        = ((groupRecRows (sharedGenreRows g M)).map RecGroup.movie).map Movie.title := by
      rw [List.map_map]
      rfl
    rw [heq₂, groupRecRows_fst]
    apply List.Nodup.map_on ?_ (List.nodup_dedup _)
    intro x hx y hy hxy
    have hxm : x ∈ g.movies := by
      rcases List.mem_map.mp (List.mem_dedup.mp hx) with ⟨row, hrow, hrowm⟩
      exact hrowm ▸ (sharedGenreRows_sound g M hmn hgn hgg hM row hrow).1
    have hym : y ∈ g.movies := by
      rcases List.mem_map.mp (List.mem_dedup.mp hy) with ⟨row, hrow, hrowm⟩
      exact hrowm ▸ (sharedGenreRows_sound g M hmn hgn hgg hM row hrow).1
    exact keyed_inj Movie.title hmn hxm hym hxy
  have hfullpw : (((groupRecRows (sharedGenreRows g M)).mergeSort recLE).map (fun r =>
      (⟨r.movie.title, r.movie.released, r.movie.tagline,
        "Shared Genres: " ++ String.intercalate ", " r.sharedGenres⟩
        : RecommendedMovie))).Pairwise (fun x y =>
      (sharedGenresSpec g M y.title).length < (sharedGenresSpec g M x.title).length
      ∨ ((sharedGenresSpec g M x.title).length = (sharedGenresSpec g M y.title).length
        ∧ x.title ≤ y.title)) := by
    apply List.pairwise_map.mpr
    have hsortPW := List.sorted_mergeSort recLE_trans recLE_total
      (groupRecRows (sharedGenreRows g M))
    apply List.Pairwise.imp_of_mem ?_ hsortPW
    intro a b ha hb hr
    obtain ⟨_, _, _, ha₄, _⟩ := hgrFacts a (List.mem_mergeSort.mp ha)
    obtain ⟨_, _, _, hb₄, _⟩ := hgrFacts b (List.mem_mergeSort.mp hb)
    rcases (recLE_iff a b).mp hr with h | ⟨h₁, h₂⟩
    · left
      show (sharedGenresSpec g M b.movie.title).length
        < (sharedGenresSpec g M a.movie.title).length
      rw [← ha₄, ← hb₄]
      exact h
    · right
      constructor
      · show (sharedGenresSpec g M a.movie.title).length
          = (sharedGenresSpec g M b.movie.title).length
        rw [← ha₄, ← hb₄]
        exact h₁
      · exact h₂
  refine ⟨?_, ⟨_, hout, hfullnodup, hfullmem, ?_, hfullpw⟩, ?_, ?_,
    fun t₂ gn => sharedGenresSpec_mem g M t₂ gn, fun t₂ => sharedGenresSpec_nodup g M t₂ hgen⟩
  · rw [hout]
    exact List.length_take_le 10 _
  · intro t
    constructor
    · rintro ⟨e, he, het⟩
      rcases List.mem_map.mp he with ⟨gr, hgr, hegr⟩
      obtain ⟨h₁, h₂, _, _, h₅⟩ := hgrFacts gr (List.mem_mergeSort.mp hgr)
      have htitle : e.title = gr.movie.title := by rw [← hegr]
      refine ⟨gr.movie, h₁, by rw [← htitle, het], ?_, ?_⟩
      · rw [← het, htitle]; exact h₂
      · rw [← het, htitle]; exact h₅
    · rintro ⟨m₂, hm₂, hm₂t, htM, hspec⟩
      obtain ⟨gn, hrow⟩ := sharedGenreRows_complete g M hmn hgn hgg hM m₂ hm₂
        (by rw [hm₂t]; exact htM) (by rw [hm₂t]; exact hspec)
      have hm₂mem : m₂ ∈ ((sharedGenreRows g M).map (fun r => r.movie)).dedup :=
        List.mem_dedup.mpr (List.mem_map.mpr ⟨⟨m₂, gn⟩, hrow, rfl⟩)
      have hgrp := groupRecRows_mem_of hm₂mem
      refine ⟨⟨m₂.title, m₂.released, m₂.tagline, "Shared Genres: "
        ++ String.intercalate ", " (((sharedGenreRows g M).filter
          (fun r => r.movie == m₂)).map (fun r => r.genre))⟩, ?_, hm₂t⟩
      exact List.mem_map.mpr ⟨_, List.mem_mergeSort.mpr hgrp, rfl⟩
  · intro e he
    rw [hout] at he
    exact hfullmem e ((List.take_sublist 10 _).mem he)
  · rw [hout]
    exact hfullpw.sublist (List.take_sublist 10 _)

/-- Witness for C7 at a concrete store: Dune and Inception share Sci-Fi, so
the recommendation for Dune mentions Inception with the Sci-Fi reason and
never exceeds ten entries. -/
theorem recommendBySharedGenres_correct_w :
    (recommendMoviesBySharedGenres gGenreRec "Dune").length ≤ 10
    ∧ (∀ e ∈ recommendMoviesBySharedGenres gGenreRec "Dune", ¬e.title = "Dune"
        ∧ e.reason = "Shared Genres: " ++ String.intercalate ", "
            (sharedGenresSpec gGenreRec "Dune" e.title)) := by
  have h := recommendBySharedGenres_correct gGenreRec "Dune" (by decide) (by decide)
    (by decide) (by decide) (by decide) (by decide)
  exact ⟨h.1, fun e he => ⟨(h.2.2.1 e he).1, (h.2.2.1 e he).2.2⟩⟩

/-- Counterexample to C1: in the via-director store both actors exist and the
undirected closure of ACTED_IN and DIRECTED joins Alice to Bob in exactly 4
hops (within the limit of 5), yet the shortest-path call reports not found,
because its relationship filter ACTED_IN|DIRECTED> forbids crossing the
DIRECTED edge from the movie back to its director. -/
theorem shortestPath_not_undirected :
    personExists gViaDirector "Alice" = true
    ∧ personExists gViaDirector "Bob" = true
    ∧ undirectedDistLE gViaDirector (GNode.person "Alice") (GNode.person "Bob") 4 = true
    ∧ undirectedDistLE gViaDirector (GNode.person "Alice") (GNode.person "Bob") 3 = false
    ∧ getShortestPathBetweenActors gViaDirector "Alice" "Bob" = none := by
  refine ⟨by decide, by decide, by decide, by decide, by decide⟩

/-- Every step of the traversal lands on a stored Person or Movie node. -/
theorem step_mem {g : Graph}
    (hae : ∀ e ∈ g.actedIn, personExists g e.person = true ∧ movieExists g e.movie = true)
    (hde : ∀ e ∈ g.directedBy, personExists g e.person = true ∧ movieExists g e.movie = true)
    {u w : GNode} (h : step g u w = true) : w ∈ pmNodes g := by
  rcases u with p | m <;> rcases w with q | t
  · exact absurd h (by simp [step])
  · rw [step, Bool.or_eq_true] at h
    rcases h with h | h
    · rcases List.any_eq_true.mp h with ⟨e, he, hec⟩
      have hec' : e.person = p ∧ e.movie = t := by simpa using hec
      rcases List.any_eq_true.mp (hae e he).2 with ⟨mv, hmv, hmt⟩
      have : mv.title = t := by
        have h₁ : mv.title = e.movie := by simpa using hmt
        rw [h₁, hec'.2]
      rw [pmNodes]
      exact List.mem_append.mpr (Or.inr (List.mem_map.mpr ⟨mv, hmv, by rw [this]⟩))
    · rcases List.any_eq_true.mp h with ⟨e, he, hec⟩
      have hec' : e.person = p ∧ e.movie = t := by simpa using hec
      rcases List.any_eq_true.mp (hde e he).2 with ⟨mv, hmv, hmt⟩
      have : mv.title = t := by
        have h₁ : mv.title = e.movie := by simpa using hmt
        rw [h₁, hec'.2]
      rw [pmNodes]
      exact List.mem_append.mpr (Or.inr (List.mem_map.mpr ⟨mv, hmv, by rw [this]⟩))
  · rw [step] at h
    rcases List.any_eq_true.mp h with ⟨e, he, hec⟩
    have hec' : e.person = q ∧ e.movie = m := by simpa using hec
    rcases List.any_eq_true.mp (hae e he).1 with ⟨pr, hpr, hpt⟩
    have : pr.name = q := by
      have h₁ : pr.name = e.person := by simpa using hpt
      rw [h₁, hec'.1]
    rw [pmNodes]
    exact List.mem_append.mpr (Or.inl (List.mem_map.mpr ⟨pr, hpr, by rw [this]⟩))
  · exact absurd h (by simp [step])

/-- A bounded-depth reachability check succeeds exactly when some traversal
walk of at most that many hops exists. -/
theorem distLE_iff_walk {g : Graph}
    (hae : ∀ e ∈ g.actedIn, personExists g e.person = true ∧ movieExists g e.movie = true)
    (hde : ∀ e ∈ g.directedBy, personExists g e.person = true ∧ movieExists g e.movie = true) :
    ∀ (k : Nat) (u v : GNode), distLE g u v k = true ↔
      ∃ nodes, IsTraversalWalk g u v nodes ∧ nodes.length ≤ k + 1 := by
  intro k
  induction k with
  | zero =>
      intro u v
      constructor
      · intro h
        have huv : u = v := by simpa [distLE] using h
        exact ⟨[u], ⟨rfl, by rw [huv]; rfl, List.chain'_singleton u⟩, by simp⟩
      · rintro ⟨nodes, ⟨hhead, hlast, _⟩, hlen⟩
        rcases nodes with _ | ⟨x, rest⟩
        · exact absurd hhead (by simp)
        · rcases rest with _ | ⟨y, rest'⟩
          · have hx : x = u := by simpa using hhead
            have hx' : x = v := by simpa using hlast
            simp [distLE, ← hx, hx']
          · exact absurd hlen (by simp)
  | succ k ih =>
      intro u v
      constructor
      · intro h
        rw [distLE, Bool.or_eq_true] at h
        rcases h with h | h
        · have huv : u = v := by simpa using h
          exact ⟨[u], ⟨rfl, by rw [huv]; rfl, List.chain'_singleton u⟩, by simp⟩
        · rcases List.any_eq_true.mp h with ⟨w, _, hw⟩
          have hw' : step g u w = true ∧ distLE g w v k = true := by simpa using hw
          obtain ⟨nodes', ⟨hhead', hlast', hchain'⟩, hlen'⟩ := (ih w v).mp hw'.2
          rcases nodes' with _ | ⟨x, rest⟩
          · exact absurd hhead' (by simp)
          · have hx : x = w := by simpa using hhead'
            refine ⟨u :: x :: rest, ⟨rfl, ?_, ?_⟩, ?_⟩
            · rw [List.getLast?_cons_cons]
              exact hlast'
            · rw [List.chain'_cons']
              exact ⟨fun y hy => by
                have hxy : x = y := by simpa using hy
                rw [← hxy, hx]; exact hw'.1, hchain'⟩
            · simpa using Nat.succ_le_succ hlen'
      · rintro ⟨nodes, ⟨hhead, hlast, hchain⟩, hlen⟩
        rcases nodes with _ | ⟨x, rest⟩
        · exact absurd hhead (by simp)
        · have hx : x = u := by simpa using hhead
          rcases rest with _ | ⟨y, rest'⟩
          · have hx' : x = v := by simpa using hlast
            rw [distLE, Bool.or_eq_true]
            exact Or.inl (by simp [← hx, hx'])
          · rw [List.chain'_cons'] at hchain
            have hstep : step g x y = true := hchain.1 y rfl
            have hwalk : IsTraversalWalk g y v (y :: rest') := by
              refine ⟨rfl, ?_, hchain.2⟩
              rw [List.getLast?_cons_cons] at hlast
              exact hlast
            have hlen' : (y :: rest').length ≤ k + 1 := by
              simpa using Nat.le_of_succ_le_succ hlen
            have hd : distLE g y v k = true := (ih y v).mpr ⟨y :: rest', hwalk, hlen'⟩
            rw [distLE, Bool.or_eq_true]
            refine Or.inr (List.any_eq_true.mpr ⟨y, ?_, by simp [← hx, hstep, hd]⟩)
            exact step_mem hae hde (hx ▸ hstep)

/-- find? over an initial segment of the naturals returns the least
satisfying index. -/
theorem find?_range_min {p : Nat → Bool} :
    ∀ {n L : Nat}, (List.range n).find? p = some L →
      p L = true ∧ ∀ k < L, p k = false := by
  intro n
  induction n with
  | zero => intro L h; exact absurd h (by simp)
  | succ n ih =>
      intro L h
      rw [List.range_succ, List.find?_append] at h
      cases hfind : (List.range n).find? p with
      | some L' =>
          rw [hfind] at h
          have hL : L' = L := by simpa using h
          exact hL ▸ ih hfind
      | none =>
          rw [hfind] at h
          simp only [Option.none_or] at h
          have hnone := List.find?_eq_none.mp hfind
          have hpL : p L = true ∧ L = n := by
            rcases hLn : p n with _ | _
            · rw [List.find?_cons, hLn] at h
              exact absurd h (by simp)
            · rw [List.find?_cons, hLn] at h
              have : n = L := by simpa using h
              exact ⟨by rw [← this]; exact hLn, this.symm⟩
          refine ⟨hpL.1, fun k hk => ?_⟩
          have hkmem : k ∈ List.range n := List.mem_range.mpr (by omega)
          exact Bool.eq_false_iff.mpr (hnone k hkmem)

/-- C1 amended: getShortestPathBetweenActors searches the closure in which
ACTED_IN edges are traversable in either direction but DIRECTED edges only
from the director to the movie (the filter string ACTED_IN|DIRECTED>), with a
5-hop limit.  A returned length is the minimum hop count of a traversal walk
between the anchors and is at most 5; when no walk of at most 5 hops exists
under that direction discipline — even if the undirected closure would
provide one — the result is null, distinct from an error. -/
theorem shortestPath_semantics (g : Graph) (a₁ a₂ : String)
    (hae : ∀ e ∈ g.actedIn, personExists g e.person = true ∧ movieExists g e.movie = true)
    (hde : ∀ e ∈ g.directedBy, personExists g e.person = true ∧ movieExists g e.movie = true) :
    (∀ L, getShortestPathBetweenActors g a₁ a₂ = some L →
      L ≤ 5
      ∧ (∃ nodes, IsTraversalWalk g (GNode.person a₁) (GNode.person a₂) nodes
          ∧ nodes.length = L + 1)
      ∧ (∀ nodes, IsTraversalWalk g (GNode.person a₁) (GNode.person a₂) nodes →
          L + 1 ≤ nodes.length))
    ∧ (personExists g a₁ = true → personExists g a₂ = true →
        getShortestPathBetweenActors g a₁ a₂ = none →
        ∀ nodes, IsTraversalWalk g (GNode.person a₁) (GNode.person a₂) nodes →
          7 ≤ nodes.length) := by
  constructor
  · intro L hL
    rw [getShortestPathBetweenActors] at hL
    by_cases hex : (personExists g a₁ && personExists g a₂) = true
    · rw [if_pos hex] at hL
      have hL5 : L ≤ 5 := by
        have := List.mem_range.mp (List.mem_of_find?_eq_some hL)
        omega
      obtain ⟨hpL, hmin⟩ := find?_range_min hL
      have hminimal : ∀ nodes, IsTraversalWalk g (GNode.person a₁) (GNode.person a₂) nodes →
          L + 1 ≤ nodes.length := by
        intro nodes hw
        by_contra hlt
        push_neg at hlt
        have hpos : 1 ≤ nodes.length := by
          rcases nodes with _ | ⟨x, rest⟩
          · exact absurd hw.1 (by simp)
          · simp
        have hk : nodes.length - 1 < L := by omega
        have hd : distLE g (GNode.person a₁) (GNode.person a₂) (nodes.length - 1) = true :=
          (distLE_iff_walk hae hde (nodes.length - 1) _ _).mpr ⟨nodes, hw, by omega⟩
        rw [hmin (nodes.length - 1) hk] at hd
        exact absurd hd (by simp)
      obtain ⟨nodes, hw, hlen⟩ := (distLE_iff_walk hae hde L _ _).mp hpL
      refine ⟨hL5, ⟨nodes, hw, ?_⟩, hminimal⟩
      have := hminimal nodes hw
      omega
    · rw [if_neg hex] at hL
      exact absurd hL (by simp)
  · intro h₁ h₂ hnone nodes hw
    rw [getShortestPathBetweenActors, if_pos (by rw [h₁, h₂]; rfl)] at hnone
    have hall := List.find?_eq_none.mp hnone
    by_contra hlt
    push_neg at hlt
    have hpos : 1 ≤ nodes.length := by
      rcases nodes with _ | ⟨x, rest⟩
      · exact absurd hw.1 (by simp)
      · simp
    have hd : distLE g (GNode.person a₁) (GNode.person a₂) (nodes.length - 1) = true :=
      (distLE_iff_walk hae hde (nodes.length - 1) _ _).mpr ⟨nodes, hw, by omega⟩
    have hmem : nodes.length - 1 ∈ List.range 6 := List.mem_range.mpr (by omega)
    exact hall _ hmem hd

/-- Witness for the amended C1 at a concrete store: Ann and Bob share the
movie M1, the call returns length 2, and the theorem yields a 3-node walk of
minimum hop count within the limit. -/
theorem shortestPath_semantics_w :
    2 ≤ 5
    ∧ (∃ nodes, IsTraversalWalk gCoActors (GNode.person "Ann") (GNode.person "Bob") nodes
        ∧ nodes.length = 3)
    ∧ (∀ nodes, IsTraversalWalk gCoActors (GNode.person "Ann") (GNode.person "Bob") nodes →
        3 ≤ nodes.length) :=
  (shortestPath_semantics gCoActors "Ann" "Bob" (by decide) (by decide)).1 2 (by decide)
